import Mathlib

/-!
Verification of the mission-validation and progress-state subsystem of the
DevOps Escape Room tutorial. The definitions below are shallow embeddings of
the TypeScript source: pure functions become Lean functions, the zustand
store mutations become functions on an explicit `GameState`, and JavaScript
numbers are modelled as `Int`/`Rat` (with an explicit NaN/Infinity-carrying
type `JsNum` where a division can occur). Strings are handled as `List Char`
where character-level reasoning is needed.
-/

namespace DevOpsEscapeRoom

/-! ## JavaScript string primitives

`String.prototype.trim`, `toUpperCase`/`toLowerCase` (ASCII range; the
instruction texts and job names in this program are ASCII) and
`startsWith`/`includes`, modelled over `List Char`. -/

/-- Whitespace recognised by `String.prototype.trim` (the ASCII part plus
NBSP; the program's instruction strings contain only ASCII whitespace). -/
def isJsWs (c : Char) : Bool :=
  decide (c.toNat = 9 ∨ c.toNat = 10 ∨ c.toNat = 11 ∨ c.toNat = 12 ∨
    c.toNat = 13 ∨ c.toNat = 32 ∨ c.toNat = 160)

/-- ASCII model of `String.prototype.toUpperCase`. -/
def jsToUpper (c : Char) : Char :=
  if 97 ≤ c.toNat ∧ c.toNat ≤ 122 then Char.ofNat (c.toNat - 32) else c

/-- ASCII model of `String.prototype.toLowerCase`. -/
def jsToLower (c : Char) : Char :=
  if 65 ≤ c.toNat ∧ c.toNat ≤ 90 then Char.ofNat (c.toNat + 32) else c

/-- Model of `String.prototype.trim`: drop leading and trailing whitespace. -/
def jsTrim (cs : List Char) : List Char :=
  ((cs.dropWhile isJsWs).reverse.dropWhile isJsWs).reverse

/-- Model of `String.prototype.trim` on `String`. -/
def jsTrimStr (s : String) : String := String.mk (jsTrim s.data)

/-- Model of `String.prototype.startsWith`. -/
def jsStartsWith (cs pat : List Char) : Bool := pat.isPrefixOf cs

/-- Contiguous-substring test used to model `String.prototype.includes`. -/
def hasSubList : List Char → List Char → Bool
  | s, sub =>
    if sub.isPrefixOf s then true
    else match s with
      | [] => false
      | _ :: t => hasSubList t sub

/-- Model of `String.prototype.includes` (substring test). -/
def jsIncludes (s sub : String) : Bool := hasSubList s.data sub.data

/-! ## `dockerValidation.ts`

Direct embedding of `CATEGORY_UUID`, `LABEL_BY_UUID`, `LABEL_TO_UUID`,
`classify`, `mapRequiredOrderToUUID` and `validateOrder`. -/

def uuidFROM : String := "11111111-1111-4111-8111-111111111111"
def uuidWORKDIR : String := "22222222-2222-4222-8222-222222222222"
def uuidCOPY_REQS : String := "33333333-3333-4333-8333-333333333333"
def uuidRUN_PIP : String := "44444444-4444-4444-8444-444444444444"
def uuidCOPY_APP : String := "55555555-5555-4555-8555-555555555555"
def uuidEXPOSE : String := "66666666-6666-4666-8666-666666666666"
def uuidCMD : String := "77777777-7777-4777-8777-777777777777"
def uuidEXTRA : String := "88888888-8888-4888-8888-888888888888"

/-- The `LABEL_BY_UUID` record; a JavaScript record lookup yields `undefined`
for an absent key, modelled by `Option`. -/
def LABEL_BY_UUID (u : String) : Option String :=
  if u = uuidFROM then some "FROM"
  else if u = uuidWORKDIR then some "WORKDIR"
  else if u = uuidCOPY_REQS then some "COPY requirements.txt"
  else if u = uuidRUN_PIP then some "RUN pip install"
  else if u = uuidCOPY_APP then some "COPY ."
  else if u = uuidEXPOSE then some "EXPOSE"
  else if u = uuidCMD then some "CMD"
  else if u = uuidEXTRA then some "EXTRA"
  else none

/-- The `LABEL_TO_UUID` record. -/
def LABEL_TO_UUID (l : String) : Option String :=
  if l = "FROM" then some uuidFROM
  else if l = "WORKDIR" then some uuidWORKDIR
  else if l = "COPY requirements.txt" then some uuidCOPY_REQS
  else if l = "RUN pip install" then some uuidRUN_PIP
  else if l = "COPY ." then some uuidCOPY_APP
  else if l = "EXPOSE" then some uuidEXPOSE
  else if l = "CMD" then some uuidCMD
  else none

/-- The `classify` function: trim and upper-case the instruction text, then
test the canonical category prefixes in order. -/
def classify (text : List Char) : String :=
  let t := (jsTrim text).map jsToUpper
  if jsStartsWith t "FROM".data then uuidFROM
  else if jsStartsWith t "WORKDIR".data then uuidWORKDIR
  else if jsStartsWith t "COPY REQUIREMENTS.TXT".data then uuidCOPY_REQS
  else if jsStartsWith t "RUN PIP INSTALL".data then uuidRUN_PIP
  else if jsStartsWith t "COPY .".data then uuidCOPY_APP
  else if jsStartsWith t "EXPOSE".data then uuidEXPOSE
  else if jsStartsWith t "CMD".data then uuidCMD
  else uuidEXTRA

/-- The `mapRequiredOrderToUUID` function: `LABEL_TO_UUID[(r || '').trim()]
|| CATEGORY_UUID.EXTRA` for each label. -/
def mapRequiredOrderToUUID (requiredOrder : List String) : List String :=
  requiredOrder.map (fun r => (LABEL_TO_UUID (jsTrimStr r)).getD uuidEXTRA)

structure ValidationResult where
  score : ℤ
  correctCount : ℕ
  total : ℕ
  feedback : List String
  success : Bool
deriving DecidableEq, Repr

/-- One step of the `validateOrder` scoring loop at index `i`. A JavaScript
slot is "placed" when it holds a truthy value; out-of-range access yields
`undefined`, also falsy. -/
def validateOrderStep (requiredOrder : List String)
    (requiredOrderLabels : List String) (currentOrder : List (Option String))
    (acc : ℤ × ℕ × List String) (i : ℕ) : ℤ × ℕ × List String :=
  let required := (requiredOrder.get? i).getD ""
  let placed := ((currentOrder.get? i).getD none).getD ""
  let fallbackLabel :=
    let l := (requiredOrderLabels.get? i).getD ""
    if l = "" then "Unknown" else l
  if placed ≠ "" then
    if placed = required then
      (acc.1 + 20, acc.2.1 + 1,
        acc.2.2 ++ ["✅ Step " ++ toString (i + 1) ++ ": Correct!"])
    else
      let expectedLabel := (LABEL_BY_UUID required).getD fallbackLabel
      let gotLabel := (LABEL_BY_UUID placed).getD "Unknown"
      (acc.1, acc.2.1,
        acc.2.2 ++ ["❌ Step " ++ toString (i + 1) ++ ": Expected \"" ++
          expectedLabel ++ "\" , got \"" ++ gotLabel ++ "\""])
  else
    let expectedLabel := (LABEL_BY_UUID required).getD fallbackLabel
    (acc.1, acc.2.1,
      acc.2.2 ++ ["❌ Step " ++ toString (i + 1) ++ ": Missing \"" ++
        expectedLabel ++ "\""])

/-- The `validateOrder` function of `dockerValidation.ts`: 20 points per
position whose placed category equals the required category, a 10-point bonus
when every slot is filled, the final score clamped to `[0, 100]`; success iff
every position matches and every slot is filled. -/
def validateOrder (placedKeyIds : List (Option String))
    (requiredOrderLabels : List String) : ValidationResult :=
  let requiredOrder := mapRequiredOrderToUUID requiredOrderLabels
  let currentOrder := placedKeyIds
  let r := (List.range requiredOrder.length).foldl
    (validateOrderStep requiredOrder requiredOrderLabels currentOrder)
    (0, 0, [])
  let allFilled := placedKeyIds.all (fun b => b ≠ none)
  let score := if allFilled then r.1 + 10 else r.1
  let feedback := if allFilled then r.2.2 ++ ["✅ All slots filled!"] else r.2.2
  { score := max 0 (min 100 score)
    correctCount := r.2.1
    total := requiredOrder.length
    feedback := feedback
    success := (r.2.1 == requiredOrder.length) && allFilled }

/-! ## Character-level lemmas for the classifier -/

theorem charToNat_ofNat (n : ℕ) (h : n < 55296) : (Char.ofNat n).toNat = n := by
  have hv : n.isValidChar := Or.inl h
  simp [Char.ofNat, hv, Char.ofNatAux, Char.toNat, UInt32.toNat]

theorem toNat_jsToUpper (c : Char) :
    (jsToUpper c).toNat =
      if 97 ≤ c.toNat ∧ c.toNat ≤ 122 then c.toNat - 32 else c.toNat := by
  unfold jsToUpper
  split
  · rename_i h
    exact charToNat_ofNat _ (by omega)
  · rfl

theorem toNat_jsToLower (c : Char) :
    (jsToLower c).toNat =
      if 65 ≤ c.toNat ∧ c.toNat ≤ 90 then c.toNat + 32 else c.toNat := by
  unfold jsToLower
  split
  · rename_i h
    exact charToNat_ofNat _ (by omega)
  · rfl

theorem isJsWs_jsToUpper (c : Char) : isJsWs (jsToUpper c) = isJsWs c := by
  unfold isJsWs
  refine decide_eq_decide.mpr ?_
  rw [toNat_jsToUpper]
  split <;> omega

theorem isJsWs_jsToLower (c : Char) : isJsWs (jsToLower c) = isJsWs c := by
  unfold isJsWs
  refine decide_eq_decide.mpr ?_
  rw [toNat_jsToLower]
  split <;> omega

theorem jsToUpper_jsToLower (c : Char) : jsToUpper (jsToLower c) = jsToUpper c := by
  by_cases h : 65 ≤ c.toNat ∧ c.toNat ≤ 90
  · have hl : jsToLower c = Char.ofNat (c.toNat + 32) := by
      unfold jsToLower
      rw [if_pos h]
    have ht : (Char.ofNat (c.toNat + 32)).toNat = c.toNat + 32 :=
      charToNat_ofNat _ (by omega)
    rw [hl]
    unfold jsToUpper
    rw [ht, if_pos (by omega), if_neg (by omega)]
    have he : c.toNat + 32 - 32 = c.toNat := by omega
    rw [he, Char.ofNat_toNat]
  · have hl : jsToLower c = c := by
      unfold jsToLower
      rw [if_neg h]
    rw [hl]

theorem jsToUpper_jsToUpper (c : Char) : jsToUpper (jsToUpper c) = jsToUpper c := by
  by_cases h : 97 ≤ c.toNat ∧ c.toNat ≤ 122
  · have hu : jsToUpper c = Char.ofNat (c.toNat - 32) := by
      unfold jsToUpper
      rw [if_pos h]
    have ht : (Char.ofNat (c.toNat - 32)).toNat = c.toNat - 32 :=
      charToNat_ofNat _ (by omega)
    rw [hu]
    unfold jsToUpper
    rw [ht, if_neg (by omega)]
  · have hu : jsToUpper c = c := by
      unfold jsToUpper
      rw [if_neg h]
    rw [hu, hu]

/-! ## Trim lemmas -/

theorem dropWhile_all_append {α} (p : α → Bool) (a b : List α)
    (h : ∀ c ∈ a, p c = true) :
    (a ++ b).dropWhile p = b.dropWhile p := by
  induction a with
  | nil => rfl
  | cons x a ih =>
    have hx : p x = true := h x (by simp)
    simp only [List.cons_append, List.dropWhile, hx]
    exact ih (fun c hc => h c (by simp [hc]))

theorem dropWhile_pos_append {α} (p : α → Bool) (a b : List α) (x : α)
    (xs : List α) (h : a.dropWhile p = x :: xs) :
    (a ++ b).dropWhile p = x :: (xs ++ b) := by
  induction a with
  | nil => simp [List.dropWhile] at h
  | cons y a ih =>
    by_cases hy : p y = true
    · simp only [List.dropWhile, hy] at h
      simp only [List.cons_append, List.dropWhile, hy]
      exact ih h
    · have hy' : p y = false := by
        cases hpy : p y
        · rfl
        · exact absurd hpy hy
      simp only [List.dropWhile, hy'] at h
      simp only [List.cons_append, List.dropWhile, hy']
      cases h
      simp

theorem dropWhile_map_comm {α} (f : α → α) (p : α → Bool)
    (hf : ∀ c, p (f c) = p c) (l : List α) :
    (l.map f).dropWhile p = (l.dropWhile p).map f := by
  induction l with
  | nil => rfl
  | cons x l ih =>
    simp only [List.map_cons, List.dropWhile, hf x]
    cases hx : p x
    · simp
    · exact ih

theorem jsTrim_map (f : Char → Char) (hf : ∀ c, isJsWs (f c) = isJsWs c)
    (cs : List Char) : jsTrim (cs.map f) = (jsTrim cs).map f := by
  unfold jsTrim
  rw [dropWhile_map_comm f isJsWs hf, ← List.map_reverse,
    dropWhile_map_comm f isJsWs hf, List.map_reverse]

theorem jsTrim_pad (ws1 ws2 s : List Char)
    (h1 : ∀ c ∈ ws1, isJsWs c = true) (h2 : ∀ c ∈ ws2, isJsWs c = true) :
    jsTrim (ws1 ++ s ++ ws2) = jsTrim s := by
  unfold jsTrim
  rw [List.append_assoc, dropWhile_all_append isJsWs ws1 (s ++ ws2) h1]
  cases hd : s.dropWhile isJsWs with
  | nil =>
    have hall : ∀ c ∈ s, isJsWs c = true := by
      intro c hc
      exact List.dropWhile_eq_nil_iff.mp hd c hc
    rw [dropWhile_all_append isJsWs s ws2 hall,
      List.dropWhile_eq_nil_iff.mpr h2]
  | cons x xs =>
    rw [dropWhile_pos_append isJsWs s ws2 x xs hd]
    have hrev : (x :: (xs ++ ws2)).reverse = ws2.reverse ++ (x :: xs).reverse := by
      simp
    rw [hrev,
      dropWhile_all_append isJsWs ws2.reverse (x :: xs).reverse
        (fun c hc => h2 c (by simpa using hc))]

/-! ## Classification invariance -/

theorem classify_pad (ws1 ws2 s : List Char)
    (h1 : ∀ c ∈ ws1, isJsWs c = true) (h2 : ∀ c ∈ ws2, isJsWs c = true) :
    classify (ws1 ++ s ++ ws2) = classify s := by
  unfold classify
  rw [jsTrim_pad ws1 ws2 s h1 h2]

theorem classify_map_toLower (s : List Char) :
    classify (s.map jsToLower) = classify s := by
  unfold classify
  rw [jsTrim_map jsToLower isJsWs_jsToLower, List.map_map]
  have : (jsTrim s).map (jsToUpper ∘ jsToLower) = (jsTrim s).map jsToUpper :=
    List.map_congr_left (fun c _ => jsToUpper_jsToLower c)
  rw [this]

theorem classify_map_toUpper (s : List Char) :
    classify (s.map jsToUpper) = classify s := by
  unfold classify
  rw [jsTrim_map jsToUpper isJsWs_jsToUpper, List.map_map]
  have : (jsTrim s).map (jsToUpper ∘ jsToUpper) = (jsTrim s).map jsToUpper :=
    List.map_congr_left (fun c _ => jsToUpper_jsToUpper c)
  rw [this]

/-- Claim C9: the classifier maps `"COPY . ."` and `"COPY ."` to the same
category, and classification is invariant under leading/trailing whitespace
and under letter case (lower- or upper-casing the instruction text does not
change its category). -/
theorem claimC9_classify_normalization :
    (classify "COPY . .".data = classify "COPY .".data) ∧
    (∀ ws1 ws2 s : List Char, (∀ c ∈ ws1, isJsWs c = true) →
      (∀ c ∈ ws2, isJsWs c = true) →
      classify (ws1 ++ s ++ ws2) = classify s) ∧
    (∀ s : List Char, classify (s.map jsToLower) = classify s) ∧
    (∀ s : List Char, classify (s.map jsToUpper) = classify s) := by
  refine ⟨by decide, classify_pad, classify_map_toLower, classify_map_toUpper⟩

/-- Witness for claim C9: the invariance facts applied at concrete inputs,
for instance `"  copy . .  "` classifies like `"COPY . ."`. -/
theorem claimC9_classify_normalization_witness :
    classify (" ".data ++ "COPY . .".data ++ "  ".data) = classify "COPY . .".data ∧
    classify ("copy . .".data) = classify "COPY . .".data := by
  constructor
  · exact claimC9_classify_normalization.2.1 " ".data "  ".data "COPY . .".data
      (by decide) (by decide)
  · have h := claimC9_classify_normalization.2.2.1 "COPY . .".data
    have he : "COPY . .".data.map jsToLower = "copy . .".data := by decide
    rw [he] at h
    exact h

/-! ## Claim C4: the ordered-block (Dockerfile) validator

`missions.json` is referenced by the source but is not part of the source
tree; the canonical required order for mission 1 is therefore modelled from
the spec.  The placed sequences are the ones the repository's own test file
(`dockerValidation.test.ts`) builds by classifying concrete instructions. -/

/-- Modelled from the spec: the mission-1 `validation.requiredOrder` labels
of the absent `missions.json`, in the category order the spec fixes for the
Dockerfile mission (`FROM`, `WORKDIR`, `COPY <deps-file>`, `RUN <install>`,
`COPY <app-code>`, `EXPOSE`, `CMD`), written as the label strings that
`LABEL_TO_UUID` recognises. -/
def mission1RequiredOrder : List String :=
  ["FROM", "WORKDIR", "COPY requirements.txt", "RUN pip install",
   "COPY .", "EXPOSE", "CMD"]

/-- The concrete instructions the repository's test file classifies to build
the correct placed sequence. -/
def mission1Picked : List String :=
  ["FROM python:3.12-slim", "WORKDIR /app", "COPY requirements.txt .",
   "RUN pip install --no-cache-dir -r requirements.txt", "COPY . .",
   "EXPOSE 8000", "CMD [\"python\", \"app.py\"]"]

/-- The same sequence with its first two entries swapped, as in the test
file's failure case. -/
def mission1PickedSwapped : List String :=
  ["WORKDIR /app", "FROM python:3.12-slim", "COPY requirements.txt .",
   "RUN pip install --no-cache-dir -r requirements.txt", "COPY . .",
   "EXPOSE 8000", "CMD [\"python\", \"app.py\"]"]

/-- Claim C4: on the canonical correct category sequence with every slot
filled, `validateOrder` returns `success = true` and `score = 100`; with the
first two entries swapped it returns `success = false` and
`correctCount < total`. -/
theorem claimC4_ordered_block_validator :
    ((validateOrder (mission1Picked.map (fun s => some (classify s.data)))
        mission1RequiredOrder).success = true ∧
     (validateOrder (mission1Picked.map (fun s => some (classify s.data)))
        mission1RequiredOrder).score = 100) ∧
    ((validateOrder (mission1PickedSwapped.map (fun s => some (classify s.data)))
        mission1RequiredOrder).success = false ∧
     (validateOrder (mission1PickedSwapped.map (fun s => some (classify s.data)))
        mission1RequiredOrder).correctCount <
      (validateOrder (mission1PickedSwapped.map (fun s => some (classify s.data)))
        mission1RequiredOrder).total) := by
  decide

/-! ## The game store (`gameStore.ts`)

The source contains two divergent copies of the zustand store.  Both are
embedded: functions suffixed `A` come from the first copy (delta-based
`updateMissionProgress`, auto-save to shared storage) and functions suffixed
`B` from the second copy (additive `updateMissionProgress`).  The state
shape is identical.  JavaScript numbers of the store are modelled as `Int`
(every value the program stores in them is an integer). -/

inductive Difficulty where
  | beginner
  | intermediate
  | advanced
deriving DecidableEq, Repr

def difficultyStr : Difficulty → String
  | .beginner => "beginner"
  | .intermediate => "intermediate"
  | .advanced => "advanced"

structure MissionProgress where
  missionId : ℤ
  completed : Bool
  timeSpent : ℤ
  hintsUsed : ℤ
  score : ℤ
  quizScore : Option ℤ
deriving DecidableEq, Repr

structure Player where
  id : String
  name : String
  difficulty : Difficulty
  currentMission : ℤ
  progress : List MissionProgress
  totalTimeSpent : ℤ
deriving DecidableEq, Repr

structure GameState where
  playerId : String
  difficulty : Difficulty
  completedMissions : List ℤ
  currentMission : Option ℤ
  progressTokens : List String
  hintsUsed : ℤ
  timeSpent : ℤ
  player : Option Player
deriving DecidableEq, Repr

/-- A `Partial<MissionProgress>` payload: each field is present or absent. -/
structure MissionPatch where
  missionId : Option ℤ
  completed : Option Bool
  timeSpent : Option ℤ
  hintsUsed : Option ℤ
  score : Option ℤ
  quizScore : Option ℤ
deriving DecidableEq, Repr

/-- The object-spread merge `{ ...existingProgress, ...progress }`: provided
fields of the patch overwrite the existing entry. -/
def applyPatch (e : MissionProgress) (patch : MissionPatch) : MissionProgress :=
  { missionId := patch.missionId.getD e.missionId
    completed := patch.completed.getD e.completed
    timeSpent := patch.timeSpent.getD e.timeSpent
    hintsUsed := patch.hintsUsed.getD e.hintsUsed
    score := patch.score.getD e.score
    quizScore := match patch.quizScore with
      | some q => some q
      | none => e.quizScore }

/-- The fresh entry built when no progress exists for the mission yet. -/
def defaultProgress (missionId : ℤ) : MissionProgress :=
  { missionId := missionId
    completed := false
    timeSpent := 0
    hintsUsed := 0
    score := 0
    quizScore := none }

/-- The JavaScript `x || 0` on a number that is known to be an integer: the
identity (only `0` is falsy among integers, and it maps to `0`). -/
def jsOrZero (x : ℤ) : ℤ := if x = 0 then 0 else x

/-- The first store copy's `createPlayer`: builds a fresh player at mission
1 with empty progress and zero time.  (The source performs no validation of
`name`; it also auto-saves to shared storage, an external write that does
not change the store state.) -/
def createPlayerA (s : GameState) (name : String) : GameState :=
  let newPlayer : Player :=
    { id := s.playerId
      name := name
      difficulty := s.difficulty
      currentMission := 1
      progress := []
      totalTimeSpent := 0 }
  { s with player := some newPlayer }

/-- The second store copy's `createPlayer` (identical state change). -/
def createPlayerB (s : GameState) (name : String) : GameState :=
  createPlayerA s name

/-- The first store copy's `updateMissionProgress`: merge the partial patch
into the entry for `missionId` (or a fresh default entry), then adjust
`totalTimeSpent` by the difference between the new and old `timeSpent`,
clamped at zero from below. -/
def updateMissionProgressA (s : GameState) (missionId : ℤ)
    (patch : MissionPatch) : GameState :=
  match s.player with
  | none => s
  | some player =>
    let idx := player.progress.findIdx? (fun e => e.missionId == missionId)
    let existingProgress :=
      match idx with
      | some i => (player.progress.get? i).getD (defaultProgress missionId)
      | none => defaultProgress missionId
    let updatedProgress := applyPatch existingProgress patch
    let newProgress :=
      match idx with
      | some i => player.progress.set i updatedProgress
      | none => player.progress ++ [updatedProgress]
    let oldTimeSpent := jsOrZero existingProgress.timeSpent
    let newTimeSpent := jsOrZero updatedProgress.timeSpent
    let timeDifference := newTimeSpent - oldTimeSpent
    let updatedPlayer : Player :=
      { player with
        progress := newProgress
        totalTimeSpent := max 0 (player.totalTimeSpent + timeDifference) }
    { s with player := some updatedPlayer }

/-- The second store copy's `updateMissionProgress`: same merge, but
`totalTimeSpent` is increased by the patch's `timeSpent || 0` outright. -/
def updateMissionProgressB (s : GameState) (missionId : ℤ)
    (patch : MissionPatch) : GameState :=
  match s.player with
  | none => s
  | some player =>
    let idx := player.progress.findIdx? (fun e => e.missionId == missionId)
    let existingProgress :=
      match idx with
      | some i => (player.progress.get? i).getD (defaultProgress missionId)
      | none => defaultProgress missionId
    let updatedProgress := applyPatch existingProgress patch
    let newProgress :=
      match idx with
      | some i => player.progress.set i updatedProgress
      | none => player.progress ++ [updatedProgress]
    let updatedPlayer : Player :=
      { player with
        progress := newProgress
        totalTimeSpent :=
          player.totalTimeSpent + jsOrZero (patch.timeSpent.getD 0) }
    { s with player := some updatedPlayer }

/-- The first store copy's `unlockNextMission`:
`currentMission = min(currentMission + 1, 6)`. -/
def unlockNextMissionA (s : GameState) : GameState :=
  match s.player with
  | none => s
  | some player =>
    let updatedPlayer : Player :=
      { player with currentMission := min (player.currentMission + 1) 6 }
    { s with player := some updatedPlayer }

/-- The second store copy's `unlockNextMission` (identical state change). -/
def unlockNextMissionB (s : GameState) : GameState :=
  unlockNextMissionA s

/-- The store's initial state shape (the random `playerId` fixed at a sample
value, as the claims do not depend on it). -/
def initialStoreState : GameState :=
  { playerId := "p1"
    difficulty := .beginner
    completedMissions := []
    currentMission := none
    progressTokens := []
    hintsUsed := 0
    timeSpent := 0
    player := none }

/-! ## Claim C10: null-player guards -/

/-- Claim C10: when no player record exists, `updateMissionProgress` and
`unlockNextMission` (in both store copies) are silent no-ops: the whole game
state is returned unchanged. -/
theorem claimC10_null_player_noop (s : GameState) (missionId : ℤ)
    (patch : MissionPatch) (h : s.player = none) :
    updateMissionProgressA s missionId patch = s ∧
    updateMissionProgressB s missionId patch = s ∧
    unlockNextMissionA s = s ∧
    unlockNextMissionB s = s := by
  unfold updateMissionProgressB unlockNextMissionB
  unfold updateMissionProgressA unlockNextMissionA
  rw [h]
  exact ⟨rfl, rfl, rfl, rfl⟩

/-- Witness for claim C10 at the initial store state. -/
theorem claimC10_null_player_noop_witness :
    updateMissionProgressA initialStoreState 3
      { missionId := none, completed := some true, timeSpent := some 50,
        hintsUsed := none, score := none, quizScore := none } =
      initialStoreState ∧
    unlockNextMissionA initialStoreState = initialStoreState := by
  have h := claimC10_null_player_noop initialStoreState 3
    { missionId := none, completed := some true, timeSpent := some 50,
      hintsUsed := none, score := none, quizScore := none } (by decide)
  exact ⟨h.1, h.2.2.1⟩

/-! ## Claim C7: `createPlayer` -/

/-- Counterexample to claim C7: `createPlayer("")` does not fail and does
create a player record (with the empty name).  Neither store copy contains
any name validation or error channel; the empty-name guard lives in the UI
caller (`DifficultySelector`). -/
theorem claimC7_counterexample_empty_name_creates_record :
    (createPlayerA initialStoreState "").player =
      some { id := "p1", name := "", difficulty := .beginner,
             currentMission := 1, progress := [], totalTimeSpent := 0 } ∧
    (createPlayerB initialStoreState "").player =
      some { id := "p1", name := "", difficulty := .beginner,
             currentMission := 1, progress := [], totalTimeSpent := 0 } := by
  decide

/-- Claim C7 (amended): `createPlayer(name)` performs no validation; for
every name (empty after trimming or not) it installs a fresh record with
`currentMission = 1`, empty progress and zero total time, carrying the
store's `playerId` and `difficulty`. -/
theorem claimC7_create_player_fresh_record (s : GameState) (name : String) :
    (createPlayerA s name).player =
      some { id := s.playerId, name := name, difficulty := s.difficulty,
             currentMission := 1, progress := [], totalTimeSpent := 0 } ∧
    (createPlayerB s name).player =
      some { id := s.playerId, name := name, difficulty := s.difficulty,
             currentMission := 1, progress := [], totalTimeSpent := 0 } := by
  exact ⟨rfl, rfl⟩

/-! ## Claim C8: `unlockNextMission` -/

/-- Claim C8: `unlockNextMission` sets
`currentMission = min(currentMission + 1, 6)` in both store copies; at the
ceiling (`currentMission = 6`) it leaves the whole state unchanged, and it
never decreases `currentMission` for any state with
`currentMission ≤ 6` (every state the store itself produces:
`createPlayer` starts at 1 and the update rule caps at 6). -/
theorem claimC8_unlock_next_mission (s : GameState) (p : Player)
    (h : s.player = some p) :
    ((unlockNextMissionA s).player =
      some { p with currentMission := min (p.currentMission + 1) 6 }) ∧
    ((unlockNextMissionB s).player =
      some { p with currentMission := min (p.currentMission + 1) 6 }) ∧
    (p.currentMission = 6 →
      unlockNextMissionA s = s ∧ unlockNextMissionB s = s) ∧
    (p.currentMission ≤ 6 →
      p.currentMission ≤ min (p.currentMission + 1) 6) := by
  have hA : unlockNextMissionA s =
      { s with
        player := some { p with currentMission := min (p.currentMission + 1) 6 } } := by
    unfold unlockNextMissionA
    rw [h]
  have hB : unlockNextMissionB s =
      { s with
        player := some { p with currentMission := min (p.currentMission + 1) 6 } } := by
    unfold unlockNextMissionB
    exact hA
  refine ⟨by rw [hA], by rw [hB], ?_, by omega⟩
  intro h6
  have hm : min (p.currentMission + 1) 6 = p.currentMission := by omega
  have hfix : ({ s with
      player := some { p with currentMission := min (p.currentMission + 1) 6 } } : GameState) = s := by
    rw [hm]
    show { s with player := some p } = s
    rw [← h]
  exact ⟨by rw [hA, hfix], by rw [hB, hfix]⟩

/-- A concrete player already at the mission ceiling. -/
def adaAtCeiling : Player :=
  { id := "p1", name := "Ada", difficulty := .beginner,
    currentMission := 6, progress := [], totalTimeSpent := 0 }

/-- A concrete store state whose player is at the mission ceiling. -/
def stateAtCeiling : GameState :=
  { initialStoreState with player := some adaAtCeiling }

/-- Witness for claim C8: a concrete player at the mission ceiling. -/
theorem claimC8_unlock_next_mission_witness :
    unlockNextMissionA stateAtCeiling = stateAtCeiling := by
  exact ((claimC8_unlock_next_mission stateAtCeiling adaAtCeiling rfl).2.2.1
    rfl).1

/-! ## Claim C2: the `totalTimeSpent` invariant -/

/-- The payload `{ timeSpent: 100 }` used twice in the failing run. -/
def timePatch : MissionPatch :=
  { missionId := none, completed := none, timeSpent := some 100,
    hintsUsed := none, score := none, quizScore := none }

/-- Claim C2 (failing run on the additive store copy): after creating a
player and applying `updateMissionProgress(1, {timeSpent: 100})` twice, the
mission-1 entry holds `timeSpent = 100` but `totalTimeSpent = 200`, so
`totalTimeSpent` differs from the sum of the per-mission `timeSpent`. -/
theorem claimC2_additive_double_count :
    ((updateMissionProgressB
        (updateMissionProgressB (createPlayerB initialStoreState "Ada")
          1 timePatch)
        1 timePatch).player.map Player.totalTimeSpent = some 200) ∧
    ((updateMissionProgressB
        (updateMissionProgressB (createPlayerB initialStoreState "Ada")
          1 timePatch)
        1 timePatch).player.map
        (fun p => (p.progress.map MissionProgress.timeSpent).sum) =
      some 100) := by
  decide

/-! ## JavaScript number model for validators that divide

Every mission validator computes with JavaScript numbers.  The validators
that only add, subtract and clamp are embedded over `Int`/`Rat` directly; the
two that divide (`validateDetection`, `validateResponse`) are embedded over
`JsNum`, which carries `NaN` and the infinities with IEEE-754/JS semantics
for the operations those validators use (the magnitudes involved are small
integers and exact small rationals, so `Rat` represents the finite values
exactly). -/

inductive JsNum where
  | nan
  | posInf
  | negInf
  | num (q : ℚ)
deriving DecidableEq, Repr

namespace JsNum

/-- JavaScript `+` on numbers. -/
def jadd : JsNum → JsNum → JsNum
  | nan, _ => nan
  | _, nan => nan
  | posInf, negInf => nan
  | negInf, posInf => nan
  | posInf, _ => posInf
  | _, posInf => posInf
  | negInf, _ => negInf
  | _, negInf => negInf
  | num a, num b => num (a + b)

/-- JavaScript `*` on numbers. -/
def jmul : JsNum → JsNum → JsNum
  | nan, _ => nan
  | _, nan => nan
  | posInf, posInf => posInf
  | posInf, negInf => negInf
  | negInf, posInf => negInf
  | negInf, negInf => posInf
  | posInf, num b => if b = 0 then nan else if 0 < b then posInf else negInf
  | num a, posInf => if a = 0 then nan else if 0 < a then posInf else negInf
  | negInf, num b => if b = 0 then nan else if 0 < b then negInf else posInf
  | num a, negInf => if a = 0 then nan else if 0 < a then negInf else posInf
  | num a, num b => num (a * b)

/-- JavaScript `/` on numbers (zero is treated as `+0`; in particular
`0 / 0 = NaN` and `x / 0 = ±Infinity` for `x ≠ 0`). -/
def jdiv : JsNum → JsNum → JsNum
  | nan, _ => nan
  | _, nan => nan
  | posInf, posInf => nan
  | posInf, negInf => nan
  | negInf, posInf => nan
  | negInf, negInf => nan
  | posInf, num b => if 0 ≤ b then posInf else negInf
  | negInf, num b => if 0 ≤ b then negInf else posInf
  | num _, posInf => num 0
  | num _, negInf => num 0
  | num a, num b =>
    if b = 0 then (if a = 0 then nan else if 0 < a then posInf else negInf)
    else num (a / b)

/-- JavaScript `Math.min` (returns `NaN` if an argument is `NaN`). -/
def jmin : JsNum → JsNum → JsNum
  | nan, _ => nan
  | _, nan => nan
  | negInf, _ => negInf
  | _, negInf => negInf
  | posInf, y => y
  | x, posInf => x
  | num a, num b => num (min a b)

/-- JavaScript `Math.round` (round half up, i.e. `⌊x + 1/2⌋`). -/
def jround : JsNum → JsNum
  | nan => nan
  | posInf => posInf
  | negInf => negInf
  | num q => num (⌊q + 1/2⌋ : ℤ)

end JsNum

/-! ## `LogDetective.tsx`: the log/error-fixing validator -/

/-- A discovered log error as the component stores it; the validator reads
only the `fixed` flag (the other fields feed the UI). -/
structure LogError where
  id : String
  line : ℤ
  content : String
  fixed : Bool
deriving DecidableEq, Repr

structure DetectionResult where
  score : JsNum
  fixedErrors : ℕ
  totalErrors : ℕ
  allErrorsFixed : Bool
deriving DecidableEq, Repr

/-- The `validateDetection` function of `LogDetective.tsx`: 40 points for
the errors being visible plus `(fixed / total) * 60`, rounded.  The division
is the JavaScript one: with an empty error list it is `0 / 0 = NaN`. -/
def validateDetection (errors : List LogError) : DetectionResult :=
  let totalErrors := errors.length
  let fixedErrors := (errors.filter (fun e => e.fixed)).length
  let score :=
    JsNum.jadd (JsNum.num 40)
      (JsNum.jmul
        (JsNum.jdiv (JsNum.num fixedErrors) (JsNum.num totalErrors))
        (JsNum.num 60))
  { score := JsNum.jround score
    fixedErrors := fixedErrors
    totalErrors := totalErrors
    allErrorsFixed := fixedErrors == totalErrors }

/-! ## `PlaceholderGames.tsx` (PipelineArchitect): the job-graph validator -/

structure PipelineJob where
  id : String
  name : String
  yaml : String
  dependencies : List String
  configured : Bool
deriving DecidableEq, Repr

structure PipelineResult where
  score : ℤ
  missingJobs : List String
  dependencyScore : ℤ
  yamlScore : ℤ
  allJobsPresent : Bool
  properDependencies : Bool
  allConfigured : Bool
deriving DecidableEq, Repr

/-- Lower-case a string the way the validator's `toLowerCase()` calls do. -/
def lowerStr (s : String) : String := String.mk (s.data.map jsToLower)

/-- The `validatePipeline` function: presence of required job names
(case-insensitive), two 25-point dependency checks, per-job YAML-substring
scoring, and `Math.min(100 - missing * 20 + dependencyScore + yamlScore,
100)`.  Note the cap at 100 has no matching floor at 0. -/
def validatePipeline (pipelineJobs : List PipelineJob)
    (requiredJobs : List String) : PipelineResult :=
  let presentJobsLower := pipelineJobs.map (fun job => lowerStr job.name)
  let missingJobs := requiredJobs.filter
    (fun job => !(presentJobsLower.contains (lowerStr job)))
  let hasTestFirst := pipelineJobs.any (fun job =>
    lowerStr job.name == "test" &&
    decide (0 < (pipelineJobs.filter
      (fun j => j.dependencies.contains job.id)).length))
  let hasBuildAfterTest := pipelineJobs.any (fun job =>
    lowerStr job.name == "build" &&
    job.dependencies.any (fun depId =>
      match pipelineJobs.find? (fun j => j.id == depId) with
      | some depJob => lowerStr depJob.name == "test"
      | none => false))
  let dependencyScore : ℤ :=
    (if hasTestFirst then 25 else 0) + (if hasBuildAfterTest then 25 else 0)
  let yamlScore : ℤ := pipelineJobs.foldl (fun acc job =>
    acc + (if jsIncludes job.yaml "runs-on: ubuntu-latest" then 10 else 0)
        + (if jsIncludes job.yaml "uses: actions/checkout@v4" then 10 else 0)
        + (if jsIncludes job.yaml "steps:" then 10 else 0)
        + (if job.configured then 10 else 0)) 0
  let totalScore :=
    min (100 - ((missingJobs.length : ℤ) * 20) + dependencyScore + yamlScore) 100
  { score := totalScore
    missingJobs := missingJobs
    dependencyScore := dependencyScore
    yamlScore := yamlScore
    allJobsPresent := missingJobs.length == 0
    properDependencies := decide (50 ≤ dependencyScore)
    allConfigured := pipelineJobs.all (fun job => job.configured) }

/-! ## The outage simulator: the incident-response validator -/

inductive StrategyRisk where
  | low
  | medium
  | high
deriving DecidableEq, Repr

structure RecoveryStrategy where
  name : String
  timeToExecute : ℚ
  risk : StrategyRisk
  effectiveness : ℚ
deriving DecidableEq, Repr

/-- An incident as the component stores it; the validator reads only the
`resolved` flag. -/
structure Incident where
  id : String
  resolved : Bool
deriving DecidableEq, Repr

/-- The `validateResponse` function of the outage simulator: a tiered
response-speed component, a strategy component (risk plus execution speed,
zero when no strategy is selected), plus `(resolved / incidents.length) * 25`,
capped by `Math.min(score, 100)`.  The source returns `{ score }`; the score
itself is returned here.  The division is the JavaScript one: with an empty
incident list it is `0 / 0 = NaN`, which then propagates through `+` and
`Math.min`. -/
def validateResponse (timeRemaining : ℚ)
    (selectedStrategy : Option RecoveryStrategy)
    (incidents : List Incident) : JsNum :=
  let responseTime := (300 - timeRemaining) / 60
  let speedPoints : ℚ :=
    if responseTime < 2 then 30 else if responseTime < 4 then 20 else 10
  let strategyPoints : ℚ :=
    match selectedStrategy with
    | none => 0
    | some s =>
      (match s.risk with
        | .low => 25
        | .medium => 15
        | .high => 5) +
      (if s.timeToExecute < 5 then 20 else if s.timeToExecute < 10 then 15
       else 10)
  let resolvedIncidents := (incidents.filter (fun i => i.resolved)).length
  let score :=
    JsNum.jadd (JsNum.num (speedPoints + strategyPoints))
      (JsNum.jmul
        (JsNum.jdiv (JsNum.num resolvedIncidents)
          (JsNum.num incidents.length))
        (JsNum.num 25))
  JsNum.jmin score (JsNum.num 100)

/-- Claim C1 (failing input): the incident-response validator evaluated at
the reachable game-end state with zero incidents (the incident list starts
empty and is only extended by a random trigger; the end-of-timer handler
calls the validator unconditionally) returns `NaN`, not a score in
`[0, 100]`: the computation is `10 + (0 / 0) * 25 = NaN`. -/
theorem claimC1_incident_score_nan_on_empty_incidents :
    validateResponse 0 none [] = JsNum.nan ∧
    ∀ q : ℚ, validateResponse 0 none [] ≠ JsNum.num q := by
  constructor
  · decide
  · intro q
    rw [show validateResponse 0 none [] = JsNum.nan from by decide]
    intro hc
    exact JsNum.noConfusion hc

/-! ## Base64 (`btoa` / `atob`)

The token codec calls the platform's `btoa`/`atob`.  `btoa` maps a string of
Latin-1 characters (code points below 256) to standard base64 and throws for
any other character (modelled by `Option`); `atob` strips ASCII whitespace,
accepts `=`-padding at the end only, and throws on other deviations. -/

def b64Alphabet : List Char :=
  "ABCDEFGHIJKLMNOPQRSTUVWXYZabcdefghijklmnopqrstuvwxyz0123456789+/".data

def b64chr (n : ℕ) : Char := b64Alphabet.getD n 'A'

def b64idx (c : Char) : Option ℕ := b64Alphabet.findIdx? (fun d => d == c)

/-- Standard base64 encoding of a byte list, three bytes to four chars with
trailing `=`-padding. -/
def b64encode : List ℕ → List Char
  | [] => []
  | [a] => [b64chr (a / 4), b64chr (a % 4 * 16), '=', '=']
  | [a, b] =>
    [b64chr (a / 4), b64chr (a % 4 * 16 + b / 16), b64chr (b % 16 * 4), '=']
  | a :: b :: c :: rest =>
    b64chr (a / 4) :: b64chr (a % 4 * 16 + b / 16) ::
      b64chr (b % 16 * 4 + c / 64) :: b64chr (c % 64) :: b64encode rest

/-- Base64 decoding of a whitespace-free char list: full four-char chunks,
a final chunk of two or three chars (with or without `=`-padding), `=` is
accepted only as final padding. -/
def b64decode : List Char → Option (List ℕ)
  | [] => some []
  | [p, q] =>
    match b64idx p, b64idx q with
    | some i, some j => some [i * 4 + j / 16]
    | _, _ => none
  | [p, q, r] =>
    match b64idx p, b64idx q, b64idx r with
    | some i, some j, some k => some [i * 4 + j / 16, j % 16 * 16 + k / 4]
    | _, _, _ => none
  | p :: q :: r :: s :: rest =>
    if s = '=' then
      if rest.isEmpty then
        if r = '=' then
          match b64idx p, b64idx q with
          | some i, some j => some [i * 4 + j / 16]
          | _, _ => none
        else
          match b64idx p, b64idx q, b64idx r with
          | some i, some j, some k => some [i * 4 + j / 16, j % 16 * 16 + k / 4]
          | _, _, _ => none
      else none
    else
      match b64idx p, b64idx q, b64idx r, b64idx s, b64decode rest with
      | some i, some j, some k, some l, some tail =>
        some ((i * 4 + j / 16) :: (j % 16 * 16 + k / 4) :: (k % 4 * 64 + l) :: tail)
      | _, _, _, _, _ => none
  | [_] => none

def isAsciiWs (c : Char) : Bool :=
  decide (c.toNat = 9 ∨ c.toNat = 10 ∨ c.toNat = 12 ∨ c.toNat = 13 ∨
    c.toNat = 32)

/-- Model of `btoa`: defined exactly on Latin-1 input (throws otherwise). -/
def btoaList (cs : List Char) : Option (List Char) :=
  if cs.all (fun c => c.toNat < 256) then
    some (b64encode (cs.map Char.toNat))
  else none

/-- Model of `atob`: strip ASCII whitespace, then base64-decode; the decoded
bytes come back as Latin-1 characters. -/
def atobList (cs : List Char) : Option (List Char) :=
  (b64decode (cs.filter (fun c => !isAsciiWs c))).map
    (fun bs => bs.map Char.ofNat)

/-! ## JSON values, `JSON.stringify` and `JSON.parse`

The token payloads are JSON objects whose leaves are strings, integers,
booleans and `null`.  `JSON.stringify` is modelled by a serializer emitting
the exact compact form the platform produces (insertion-order keys, no
whitespace, `\"`/`\\`/`\b`/`\f`/`\n`/`\r`/`\t`/`\u00XX` string escapes);
`JSON.parse` by a fuelled recursive-descent parser over the value grammar
(numbers restricted to the integer forms the encoder emits; fraction and
exponent forms are treated as malformed). -/

inductive Json where
  | null
  | bool (b : Bool)
  | num (n : ℤ)
  | str (s : List Char)
  | arr (elems : List Json)
  | obj (members : List (List Char × Json))

/-- The `{` character, written by code point. -/
def lbrace : Char := Char.ofNat 123

/-- The `}` character, written by code point. -/
def rbrace : Char := Char.ofNat 125

def hexDigitChr (n : ℕ) : Char :=
  if n < 10 then Char.ofNat (48 + n) else Char.ofNat (87 + n)

/-- The `JSON.stringify` escape of one string character. -/
def escChar (c : Char) : List Char :=
  if c = '"' then ['\\', '"']
  else if c = '\\' then ['\\', '\\']
  else if c.toNat = 8 then ['\\', 'b']
  else if c.toNat = 9 then ['\\', 't']
  else if c.toNat = 10 then ['\\', 'n']
  else if c.toNat = 12 then ['\\', 'f']
  else if c.toNat = 13 then ['\\', 'r']
  else if c.toNat < 32 then
    ['\\', 'u', '0', '0', hexDigitChr (c.toNat / 16), hexDigitChr (c.toNat % 16)]
  else [c]

/-- Serialize a JSON string: quote, escape each character, quote. -/
def serStr (s : List Char) : List Char :=
  '"' :: (s.map escChar).flatten ++ ['"']

def digitChr (d : ℕ) : Char := Char.ofNat (48 + d)

/-- Decimal digits of `n`, most significant first, in front of `acc`.  The
first argument is recursion fuel (`n` itself is always enough); the fueled
form keeps the definition structurally recursive, hence evaluable. -/
def serNatAux : ℕ → ℕ → List Char → List Char
  | 0, n, acc => digitChr n :: acc
  | fuel + 1, n, acc =>
    if n < 10 then digitChr n :: acc
    else serNatAux fuel (n / 10) (digitChr (n % 10) :: acc)

def serNat (n : ℕ) : List Char := serNatAux n n []

def serInt (n : ℤ) : List Char :=
  if n < 0 then '-' :: serNat n.natAbs else serNat n.natAbs

mutual

/-- Compact `JSON.stringify` output for a value. -/
def serJson : Json → List Char
  | .null => "null".data
  | .bool true => "true".data
  | .bool false => "false".data
  | .num n => serInt n
  | .str s => serStr s
  | .arr elems => '[' :: serElems elems ++ [']']
  | .obj members => lbrace :: serMembers members ++ [rbrace]

/-- Comma-separated serialized array elements. -/
def serElems : List Json → List Char
  | [] => []
  | [x] => serJson x
  | x :: xs => serJson x ++ ',' :: serElems xs

/-- Comma-separated serialized object members. -/
def serMembers : List (List Char × Json) → List Char
  | [] => []
  | [(k, v)] => serStr k ++ ':' :: serJson v
  | (k, v) :: ms => serStr k ++ ':' :: serJson v ++ ',' :: serMembers ms

end

def isJsonWs (c : Char) : Bool :=
  decide (c.toNat = 32 ∨ c.toNat = 9 ∨ c.toNat = 10 ∨ c.toNat = 13)

def skipWs (cs : List Char) : List Char := cs.dropWhile isJsonWs

def hexVal (c : Char) : Option ℕ :=
  if 48 ≤ c.toNat ∧ c.toNat ≤ 57 then some (c.toNat - 48)
  else if 97 ≤ c.toNat ∧ c.toNat ≤ 102 then some (c.toNat - 87)
  else if 65 ≤ c.toNat ∧ c.toNat ≤ 70 then some (c.toNat - 55)
  else none

/-- The single-character string escapes `JSON.parse` accepts. -/
def unescChar (e : Char) : Option Char :=
  if e = '"' then some '"'
  else if e = '\\' then some '\\'
  else if e = '/' then some '/'
  else if e = 'b' then some (Char.ofNat 8)
  else if e = 't' then some (Char.ofNat 9)
  else if e = 'n' then some (Char.ofNat 10)
  else if e = 'f' then some (Char.ofNat 12)
  else if e = 'r' then some (Char.ofNat 13)
  else none

/-- Parse a JSON string body (after the opening quote) up to the closing
quote, handling the escapes. -/
def parseStringBody : List Char → Option (List Char × List Char)
  | [] => none
  | c :: rest =>
    if c = '"' then some ([], rest)
    else if c = '\\' then
      match rest with
      | [] => none
      | e :: rest2 =>
        if e = 'u' then
          match rest2 with
          | h1 :: h2 :: h3 :: h4 :: rest3 =>
            (match hexVal h1, hexVal h2, hexVal h3, hexVal h4 with
             | some a, some b, some cc, some d =>
               (parseStringBody rest3).map
                 (fun p =>
                   (Char.ofNat (a * 4096 + b * 256 + cc * 16 + d) :: p.1, p.2))
             | _, _, _, _ => none)
          | _ => none
        else
          match unescChar e with
          | some c2 => (parseStringBody rest2).map (fun p => (c2 :: p.1, p.2))
          | none => none
    else (parseStringBody rest).map (fun p => (c :: p.1, p.2))

def digitVal (c : Char) : Option ℕ :=
  if 48 ≤ c.toNat ∧ c.toNat ≤ 57 then some (c.toNat - 48) else none

/-- Consume a maximal run of decimal digits, folding them onto `acc`. -/
def parseDigitsAux : List Char → ℕ → ℕ × List Char
  | [], acc => (acc, [])
  | c :: rest, acc =>
    match digitVal c with
    | some d => parseDigitsAux rest (acc * 10 + d)
    | none => (acc, c :: rest)

/-- Parse an (integer) JSON number: optional minus sign, then at least one
digit. -/
def parseNumber (cs : List Char) : Option (ℤ × List Char) :=
  match cs with
  | [] => none
  | c :: rest =>
    if c = '-' then
      match rest with
      | [] => none
      | c2 :: _ =>
        if (digitVal c2).isSome then
          let p := parseDigitsAux rest 0
          some (-(p.1 : ℤ), p.2)
        else none
    else if (digitVal c).isSome then
      let p := parseDigitsAux (c :: rest) 0
      some ((p.1 : ℤ), p.2)
    else none

mutual

/-- Parse one JSON value (fuelled; the fuel bounds the nesting of the
recursive descent). -/
def parseValue : ℕ → List Char → Option (Json × List Char)
  | 0, _ => none
  | fuel + 1, cs =>
    match skipWs cs with
    | [] => none
    | c :: rest =>
      if ((digitVal c).isSome || c = '-') = true then
        (parseNumber (c :: rest)).map (fun p => (Json.num p.1, p.2))
      else if c = 't' then
        match rest with
        | 'r' :: 'u' :: 'e' :: r => some (Json.bool true, r)
        | _ => none
      else if c = 'f' then
        match rest with
        | 'a' :: 'l' :: 's' :: 'e' :: r => some (Json.bool false, r)
        | _ => none
      else if c = 'n' then
        match rest with
        | 'u' :: 'l' :: 'l' :: r => some (Json.null, r)
        | _ => none
      else if c = '"' then
        (parseStringBody rest).map (fun p => (Json.str p.1, p.2))
      else if c = '[' then
        match skipWs rest with
        | [] => none
        | c2 :: r2 =>
          if c2 = ']' then some (Json.arr [], r2)
          else (parseElems fuel (c2 :: r2)).map (fun p => (Json.arr p.1, p.2))
      else if c = lbrace then
        match skipWs rest with
        | [] => none
        | c2 :: r2 =>
          if c2 = rbrace then some (Json.obj [], r2)
          else (parseMembers fuel (c2 :: r2)).map (fun p => (Json.obj p.1, p.2))
      else none

/-- Parse the elements of a non-empty array (after the `[`). -/
def parseElems : ℕ → List Char → Option (List Json × List Char)
  | 0, _ => none
  | fuel + 1, cs =>
    match parseValue fuel cs with
    | some (v, r) =>
      match skipWs r with
      | [] => none
      | c :: r2 =>
        if c = ',' then (parseElems fuel r2).map (fun p => (v :: p.1, p.2))
        else if c = ']' then some ([v], r2)
        else none
    | none => none

/-- Parse the members of a non-empty object (after the `{`). -/
def parseMembers : ℕ → List Char →
    Option (List (List Char × Json) × List Char)
  | 0, _ => none
  | fuel + 1, cs =>
    match skipWs cs with
    | '"' :: rest =>
      match parseStringBody rest with
      | some (k, r) =>
        match skipWs r with
        | ':' :: r2 =>
          match parseValue fuel r2 with
          | some (v, r3) =>
            match skipWs r3 with
            | [] => none
            | c :: r4 =>
              if c = ',' then
                (parseMembers fuel r4).map (fun p => ((k, v) :: p.1, p.2))
              else if c = rbrace then some ([(k, v)], r4)
              else none
          | none => none
        | _ => none
      | none => none
    | _ => none

end

/-- The `JSON.parse` model: parse one value and demand only trailing
whitespace after it. -/
def jsonParse (cs : List Char) : Option Json :=
  match parseValue (cs.length + 1) cs with
  | some (j, rest) => if (skipWs rest).isEmpty then some j else none
  | none => none

/-! ## Base64 round trip -/

theorem b64idx_b64chr : ∀ v : ℕ, v < 64 → b64idx (b64chr v) = some v := by
  decide

theorem b64chr_ne_pad : ∀ v : ℕ, v < 64 → b64chr v ≠ '=' := by
  decide

theorem b64chr_not_ws : ∀ v : ℕ, v < 64 → isAsciiWs (b64chr v) = false := by
  decide

theorem b64decode_b64encode :
    ∀ bs : List ℕ, (∀ b ∈ bs, b < 256) → b64decode (b64encode bs) = some bs := by
  have main : ∀ n : ℕ, ∀ bs : List ℕ, bs.length ≤ n → (∀ b ∈ bs, b < 256) →
      b64decode (b64encode bs) = some bs := by
    intro n
    induction n with
    | zero =>
      intro bs hlen _
      have : bs = [] := List.length_eq_zero.mp (Nat.le_zero.mp hlen)
      subst this
      rfl
    | succ n ih =>
      intro bs hlen hb
      match bs with
      | [] => rfl
      | [a] =>
        have ha : a < 256 := hb a (by simp)
        simp only [b64encode, b64decode, List.isEmpty]
        rw [b64idx_b64chr _ (by omega), b64idx_b64chr _ (by omega)]
        simp only [if_pos rfl]
        simp
        omega
      | [a, b] =>
        have ha : a < 256 := hb a (by simp)
        have hbb : b < 256 := hb b (by simp)
        simp only [b64encode, b64decode, List.isEmpty]
        rw [if_neg (b64chr_ne_pad _ (by omega)),
          b64idx_b64chr _ (by omega), b64idx_b64chr _ (by omega),
          b64idx_b64chr _ (by omega)]
        simp only [if_pos rfl]
        simp
        omega
      | a :: b :: c :: rest =>
        have ha : a < 256 := hb a (by simp)
        have hbb : b < 256 := hb b (by simp)
        have hc : c < 256 := hb c (by simp)
        have hrest : ∀ x ∈ rest, x < 256 := by
          intro x hx
          exact hb x (by simp [hx])
        have hlen' : rest.length ≤ n := by
          simp only [List.length_cons] at hlen
          omega
        simp only [b64encode, b64decode]
        rw [if_neg (b64chr_ne_pad _ (by omega)),
          b64idx_b64chr _ (by omega), b64idx_b64chr _ (by omega),
          b64idx_b64chr _ (by omega), b64idx_b64chr _ (by omega),
          ih rest hlen' hrest]
        simp
        omega
  intro bs
  exact main bs.length bs le_rfl

theorem b64encode_no_ws :
    ∀ bs : List ℕ, (∀ b ∈ bs, b < 256) →
      ∀ c ∈ b64encode bs, isAsciiWs c = false := by
  have main : ∀ n : ℕ, ∀ bs : List ℕ, bs.length ≤ n → (∀ b ∈ bs, b < 256) →
      ∀ c ∈ b64encode bs, isAsciiWs c = false := by
    intro n
    induction n with
    | zero =>
      intro bs hlen _
      have : bs = [] := List.length_eq_zero.mp (Nat.le_zero.mp hlen)
      subst this
      intro c hc
      simp [b64encode] at hc
    | succ n ih =>
      intro bs hlen hb c hc
      match bs with
      | [] => simp [b64encode] at hc
      | [a] =>
        have ha : a < 256 := hb a (by simp)
        simp only [b64encode, List.mem_cons, List.not_mem_nil, or_false] at hc
        rcases hc with h | h | h | h
        · subst h; exact b64chr_not_ws _ (by omega)
        · subst h; exact b64chr_not_ws _ (by omega)
        · subst h; decide
        · subst h; decide
      | [a, b] =>
        have ha : a < 256 := hb a (by simp)
        have hbb : b < 256 := hb b (by simp)
        simp only [b64encode, List.mem_cons, List.not_mem_nil, or_false] at hc
        rcases hc with h | h | h | h
        · subst h; exact b64chr_not_ws _ (by omega)
        · subst h; exact b64chr_not_ws _ (by omega)
        · subst h; exact b64chr_not_ws _ (by omega)
        · subst h; decide
      | a :: b :: cc :: rest =>
        have ha : a < 256 := hb a (by simp)
        have hbb : b < 256 := hb b (by simp)
        have hcc : cc < 256 := hb cc (by simp)
        have hrest : ∀ x ∈ rest, x < 256 := by
          intro x hx
          exact hb x (by simp [hx])
        have hlen' : rest.length ≤ n := by
          simp only [List.length_cons] at hlen
          omega
        simp only [b64encode, List.mem_cons] at hc
        rcases hc with h | h | h | h | h
        · subst h; exact b64chr_not_ws _ (by omega)
        · subst h; exact b64chr_not_ws _ (by omega)
        · subst h; exact b64chr_not_ws _ (by omega)
        · subst h; exact b64chr_not_ws _ (by omega)
        · exact ih rest hlen' hrest c h
  intro bs
  exact main bs.length bs le_rfl

/-- Round trip of the platform pair: `atob(btoa(s)) = s` on Latin-1 input. -/
theorem atobList_btoaList (cs : List Char) (h : ∀ c ∈ cs, c.toNat < 256) :
    ∃ t, btoaList cs = some t ∧ atobList t = some cs := by
  have hall : cs.all (fun c => c.toNat < 256) = true := by
    rw [List.all_eq_true]
    intro c hc
    exact decide_eq_true (h c hc)
  refine ⟨b64encode (cs.map Char.toNat), ?_, ?_⟩
  · unfold btoaList
    rw [if_pos hall]
  · unfold atobList
    have hbytes : ∀ b ∈ cs.map Char.toNat, b < 256 := by
      intro b hbm
      rcases List.mem_map.mp hbm with ⟨c, hc, rfl⟩
      exact h c hc
    have hfilter :
        (b64encode (cs.map Char.toNat)).filter (fun c => !isAsciiWs c) =
          b64encode (cs.map Char.toNat) := by
      rw [List.filter_eq_self]
      intro c hc
      rw [b64encode_no_ws _ hbytes c hc]
      rfl
    rw [hfilter, b64decode_b64encode _ hbytes]
    show some ((cs.map Char.toNat).map Char.ofNat) = some cs
    congr 1
    rw [List.map_map]
    have : ∀ c ∈ cs, (Char.ofNat ∘ Char.toNat) c = id c := by
      intro c _
      simp [Char.ofNat_toNat]
    calc cs.map (Char.ofNat ∘ Char.toNat) = cs.map id := List.map_congr_left this
      _ = cs := List.map_id cs

/-! ## String and number round trips for the JSON codec -/

theorem hexVal_hexDigitChr : ∀ v : ℕ, v < 16 → hexVal (hexDigitChr v) = some v := by
  decide

theorem digitVal_digitChr : ∀ d : ℕ, d < 10 → digitVal (digitChr d) = some d := by
  decide

/-- One-step reduction: a closing quote ends the string body. -/
theorem parseStringBody_quote (rest : List Char) :
    parseStringBody ('"' :: rest) = some ([], rest) := by
  rw [parseStringBody.eq_def]
  simp

/-- One-step reduction: a single-character escape. -/
theorem parseStringBody_esc (e c2 : Char) (tail : List Char)
    (hu : e ≠ 'u') (hun : unescChar e = some c2) :
    parseStringBody ('\\' :: e :: tail) =
      (parseStringBody tail).map (fun p => (c2 :: p.1, p.2)) := by
  rw [parseStringBody.eq_def]
  simp [hu, hun]

/-- One-step reduction: a `\u`-escape with four hex digits. -/
theorem parseStringBody_u (h1 h2 h3 h4 : Char) (a b cc d : ℕ)
    (tail : List Char) (e1 : hexVal h1 = some a) (e2 : hexVal h2 = some b)
    (e3 : hexVal h3 = some cc) (e4 : hexVal h4 = some d) :
    parseStringBody ('\\' :: 'u' :: h1 :: h2 :: h3 :: h4 :: tail) =
      (parseStringBody tail).map
        (fun p => (Char.ofNat (a * 4096 + b * 256 + cc * 16 + d) :: p.1, p.2)) := by
  rw [parseStringBody.eq_def]
  simp [e1, e2, e3, e4]

/-- One-step reduction: an unescaped ordinary character. -/
theorem parseStringBody_plain (c : Char) (tail : List Char)
    (h1 : c ≠ '"') (h2 : c ≠ '\\') :
    parseStringBody (c :: tail) =
      (parseStringBody tail).map (fun p => (c :: p.1, p.2)) := by
  rw [parseStringBody.eq_def]
  simp [h1, h2]

/-- Parsing the escaped form of a string (followed by the closing quote)
recovers the string. -/
theorem parseStringBody_escaped (s : List Char) :
    ∀ rest : List Char,
      parseStringBody ((s.map escChar).flatten ++ '"' :: rest) =
        some (s, rest) := by
  induction s with
  | nil =>
    intro rest
    simp [parseStringBody_quote]
  | cons c s ih =>
    intro rest
    simp only [List.map_cons, List.flatten_cons, List.append_assoc]
    by_cases h1 : c = '"'
    · subst h1
      have he : escChar '"' = ['\\', '"'] := by decide
      rw [he]
      simp only [List.cons_append, List.nil_append]
      rw [parseStringBody_esc '"' '"' _ (by decide) (by decide), ih]
      rfl
    by_cases h2 : c = '\\'
    · subst h2
      have he : escChar '\\' = ['\\', '\\'] := by decide
      rw [he]
      simp only [List.cons_append, List.nil_append]
      rw [parseStringBody_esc '\\' '\\' _ (by decide) (by decide), ih]
      rfl
    by_cases h3 : c.toNat = 8
    · have he : escChar c = ['\\', 'b'] := by simp [escChar, h1, h2, h3]
      rw [he]
      simp only [List.cons_append, List.nil_append]
      rw [parseStringBody_esc 'b' (Char.ofNat 8) _ (by decide) (by decide), ih]
      simp only [Option.map_some']
      rw [← h3, Char.ofNat_toNat]
    by_cases h4 : c.toNat = 9
    · have he : escChar c = ['\\', 't'] := by simp [escChar, h1, h2, h3, h4]
      rw [he]
      simp only [List.cons_append, List.nil_append]
      rw [parseStringBody_esc 't' (Char.ofNat 9) _ (by decide) (by decide), ih]
      simp only [Option.map_some']
      rw [← h4, Char.ofNat_toNat]
    by_cases h5 : c.toNat = 10
    · have he : escChar c = ['\\', 'n'] := by simp [escChar, h1, h2, h3, h4, h5]
      rw [he]
      simp only [List.cons_append, List.nil_append]
      rw [parseStringBody_esc 'n' (Char.ofNat 10) _ (by decide) (by decide), ih]
      simp only [Option.map_some']
      rw [← h5, Char.ofNat_toNat]
    by_cases h6 : c.toNat = 12
    · have he : escChar c = ['\\', 'f'] := by
        simp [escChar, h1, h2, h3, h4, h5, h6]
      rw [he]
      simp only [List.cons_append, List.nil_append]
      rw [parseStringBody_esc 'f' (Char.ofNat 12) _ (by decide) (by decide), ih]
      simp only [Option.map_some']
      rw [← h6, Char.ofNat_toNat]
    by_cases h7 : c.toNat = 13
    · have he : escChar c = ['\\', 'r'] := by
        simp [escChar, h1, h2, h3, h4, h5, h6, h7]
      rw [he]
      simp only [List.cons_append, List.nil_append]
      rw [parseStringBody_esc 'r' (Char.ofNat 13) _ (by decide) (by decide), ih]
      simp only [Option.map_some']
      rw [← h7, Char.ofNat_toNat]
    by_cases h8 : c.toNat < 32
    · have he : escChar c =
          ['\\', 'u', '0', '0', hexDigitChr (c.toNat / 16),
           hexDigitChr (c.toNat % 16)] := by
        simp [escChar, h1, h2, h3, h4, h5, h6, h7, h8]
      rw [he]
      simp only [List.cons_append, List.nil_append]
      rw [parseStringBody_u '0' '0' _ _ 0 0 (c.toNat / 16) (c.toNat % 16) _
        (by decide) (by decide) (hexVal_hexDigitChr _ (by omega))
        (hexVal_hexDigitChr _ (by omega)), ih]
      simp only [Option.map_some']
      have harith : 0 * 4096 + 0 * 256 + c.toNat / 16 * 16 + c.toNat % 16
          = c.toNat := by omega
      rw [harith, Char.ofNat_toNat]
    · have he : escChar c = [c] := by
        simp [escChar, h1, h2, h3, h4, h5, h6, h7, h8]
      rw [he]
      simp only [List.cons_append, List.nil_append]
      rw [parseStringBody_plain c _ h1 h2, ih]
      rfl

/-- With enough fuel, the accumulator-style serializer appends the digits of
`n` in front of the accumulator, independently of the exact fuel. -/
theorem serNatAux_append :
    ∀ f n acc, n ≤ f → serNatAux f n acc = serNat n ++ acc := by
  have main : ∀ N : ℕ, ∀ f, f ≤ N → ∀ n acc, n ≤ f →
      serNatAux f n acc = serNat n ++ acc := by
    intro N
    induction N with
    | zero =>
      intro f hf n acc hn
      have hf0 : f = 0 := by omega
      have hn0 : n = 0 := by omega
      subst hf0
      subst hn0
      rfl
    | succ N ih =>
      intro f hf n acc hn
      rcases f with _ | g
      · have : n = 0 := by omega
        subst this
        rfl
      · by_cases h : n < 10
        · show (if n < 10 then digitChr n :: acc else _) = serNat n ++ acc
          rw [if_pos h]
          rcases n with _ | m
          · rfl
          · show _ = serNatAux (m + 1) (m + 1) [] ++ acc
            show _ = (if m + 1 < 10 then digitChr (m + 1) :: [] else _) ++ acc
            rw [if_pos h]
            rfl
        · show (if n < 10 then digitChr n :: acc else
            serNatAux g (n / 10) (digitChr (n % 10) :: acc)) = serNat n ++ acc
          rw [if_neg h, ih g (by omega) (n / 10) _ (by omega)]
          rcases n with _ | m
          · omega
          · show _ = serNatAux (m + 1) (m + 1) [] ++ acc
            show _ = (if m + 1 < 10 then digitChr (m + 1) :: [] else
              serNatAux m ((m + 1) / 10) (digitChr ((m + 1) % 10) :: [])) ++ acc
            rw [if_neg h,
              ih m (by omega) ((m + 1) / 10) (digitChr ((m + 1) % 10) :: [])
                (by omega),
              List.append_assoc]
            rfl
  intro f n acc hn
  exact main f f le_rfl n acc hn

/-- One-step unfolding of `serNat`. -/
theorem serNat_eq (n : ℕ) :
    serNat n =
      if n < 10 then [digitChr n]
      else serNat (n / 10) ++ [digitChr (n % 10)] := by
  by_cases h : n < 10
  · rw [if_pos h]
    rcases n with _ | m
    · rfl
    · show (if m + 1 < 10 then digitChr (m + 1) :: [] else _) = _
      rw [if_pos h]
  · rw [if_neg h]
    rcases n with _ | m
    · omega
    · show (if m + 1 < 10 then digitChr (m + 1) :: [] else
        serNatAux m ((m + 1) / 10) (digitChr ((m + 1) % 10) :: [])) = _
      rw [if_neg h, serNatAux_append m ((m + 1) / 10) _ (by omega)]

theorem serNat_all_digits :
    ∀ n, ∀ c ∈ serNat n, (digitVal c).isSome = true := by
  have main : ∀ N : ℕ, ∀ n, n ≤ N → ∀ c ∈ serNat n, (digitVal c).isSome = true := by
    intro N
    induction N with
    | zero =>
      intro n hn c hc
      have : n = 0 := by omega
      subst this
      simp [serNat, serNatAux] at hc
      subst hc
      decide
    | succ N ih =>
      intro n hn c hc
      by_cases h : n < 10
      · rw [serNat_eq, if_pos h] at hc
        simp at hc
        subst hc
        rw [digitVal_digitChr n h]
        rfl
      · rw [serNat_eq, if_neg h] at hc
        rcases List.mem_append.mp hc with hm | hm
        · exact ih (n / 10) (by omega) c hm
        · simp at hm
          subst hm
          rw [digitVal_digitChr _ (by omega)]
          rfl
  intro n
  exact main n n le_rfl

theorem serNat_ne_nil (n : ℕ) : serNat n ≠ [] := by
  by_cases h : n < 10
  · rw [serNat_eq, if_pos h]
    simp
  · rw [serNat_eq, if_neg h]
    simp

/-- Maximal-munch digit parsing of a digit block followed by a non-digit
boundary. -/
theorem parseDigitsAux_spec :
    ∀ (ds : List Char), (∀ c ∈ ds, (digitVal c).isSome = true) →
      ∀ (rest : List Char), (∀ c, rest.head? = some c → digitVal c = none) →
      ∀ a, parseDigitsAux (ds ++ rest) a =
        (ds.foldl (fun acc c => acc * 10 + (digitVal c).getD 0) a, rest) := by
  intro ds
  induction ds with
  | nil =>
    intro _ rest hrest a
    match rest with
    | [] => rfl
    | c :: r =>
      have : digitVal c = none := hrest c rfl
      simp [parseDigitsAux, this]
  | cons d ds ih =>
    intro hds rest hrest a
    have hd : (digitVal d).isSome = true := hds d (by simp)
    rcases Option.isSome_iff_exists.mp hd with ⟨v, hv⟩
    simp only [List.cons_append, parseDigitsAux, hv, List.foldl_cons,
      List.append_eq]
    rw [ih (fun c hc => hds c (by simp [hc])) rest hrest]
    rfl

/-- Folding the digits of `serNat n` onto accumulator `a` yields
`a * 10^k + n` for the digit count `k`. -/
theorem foldl_serNat :
    ∀ n a, ∃ p : ℕ, 0 < p ∧
      (serNat n).foldl (fun acc c => acc * 10 + (digitVal c).getD 0) a
        = a * p + n := by
  have main : ∀ N : ℕ, ∀ n, n ≤ N → ∀ a, ∃ p : ℕ, 0 < p ∧
      (serNat n).foldl (fun acc c => acc * 10 + (digitVal c).getD 0) a
        = a * p + n := by
    intro N
    induction N with
    | zero =>
      intro n hn a
      have : n = 0 := by omega
      subst this
      refine ⟨10, by omega, ?_⟩
      simp [serNat, serNatAux]
      decide
    | succ N ih =>
      intro n hn a
      by_cases h : n < 10
      · refine ⟨10, by omega, ?_⟩
        rw [serNat_eq, if_pos h]
        simp [digitVal_digitChr n h]
      · have hrec := ih (n / 10) (by omega) a
        rcases hrec with ⟨p, hp, hfold⟩
        refine ⟨p * 10, by positivity, ?_⟩
        rw [serNat_eq, if_neg h, List.foldl_append, hfold]
        simp only [List.foldl_cons, List.foldl_nil,
          digitVal_digitChr _ (show n % 10 < 10 by omega)]
        have : (Option.getD (some (n % 10)) 0) = n % 10 := rfl
        rw [this]
        have : (a * p + n / 10) * 10 + n % 10 = a * (p * 10) + n := by
          have := Nat.div_add_mod n 10
          ring_nf
          omega
        omega
  intro n
  exact main n n le_rfl

theorem digit_ne_minus (c : Char) (h : (digitVal c).isSome = true) :
    c ≠ '-' := by
  intro hc
  subst hc
  simp [digitVal] at h

/-- Parsing the serialized form of an integer (followed by a non-digit
boundary) recovers the integer. -/
theorem parseNumber_serInt (n : ℤ) (rest : List Char)
    (hrest : ∀ c, rest.head? = some c → digitVal c = none) :
    parseNumber (serInt n ++ rest) = some (n, rest) := by
  have habs : ∀ m : ℕ, parseDigitsAux (serNat m ++ rest) 0 = (m, rest) := by
    intro m
    rw [parseDigitsAux_spec (serNat m) (serNat_all_digits m) rest hrest 0]
    rcases foldl_serNat m 0 with ⟨p, _, hfold⟩
    rw [hfold]
    simp
  rcases hhead : serNat n.natAbs with _ | ⟨c, t⟩
  · exact absurd hhead (serNat_ne_nil _)
  have hcdigit : (digitVal c).isSome = true := by
    apply serNat_all_digits n.natAbs
    rw [hhead]
    simp
  by_cases hneg : n < 0
  · unfold serInt
    rw [if_pos hneg, hhead]
    simp only [List.cons_append, parseNumber, if_pos rfl]
    have hres := habs n.natAbs
    rw [hhead] at hres
    simp only [List.cons_append] at hres
    rw [hres]
    simp only [hcdigit, if_pos]
    have : -(n.natAbs : ℤ) = n := by omega
    rw [this]
  · unfold serInt
    rw [if_neg hneg, hhead]
    simp only [List.cons_append, parseNumber]
    rw [if_neg (digit_ne_minus c hcdigit), if_pos hcdigit]
    have hres := habs n.natAbs
    rw [hhead] at hres
    simp only [List.cons_append] at hres
    rw [hres]
    have : (n.natAbs : ℤ) = n := by omega
    rw [this]

/-! ## Parser completeness on serializer output -/

mutual

/-- Fuel needed by `parseValue` to traverse a serialized value. -/
def jfuel : Json → ℕ
  | .null => 1
  | .bool _ => 1
  | .num _ => 1
  | .str _ => 1
  | .arr [] => 1
  | .arr (x :: xs) => 1 + jfuelElems (x :: xs)
  | .obj [] => 1
  | .obj (m :: ms) => 1 + jfuelMembers (m :: ms)

/-- Fuel needed by `parseElems` for a serialized element list. -/
def jfuelElems : List Json → ℕ
  | [] => 0
  | x :: xs => 1 + jfuel x + jfuelElems xs

/-- Fuel needed by `parseMembers` for a serialized member list. -/
def jfuelMembers : List (List Char × Json) → ℕ
  | [] => 0
  | (_, v) :: ms => 1 + jfuel v + jfuelMembers ms

end

theorem jfuel_pos : ∀ j, 0 < jfuel j := by
  intro j
  match j with
  | .null | .bool _ | .num _ | .str _ => simp [jfuel]
  | .arr [] | .obj [] => simp [jfuel]
  | .arr (x :: xs) => simp [jfuel]
  | .obj (m :: ms) => simp [jfuel]

theorem char_ne_of_toNat_ne {a b : Char} (h : a.toNat ≠ b.toNat) : a ≠ b :=
  fun he => h (he ▸ rfl)

theorem digitVal_isSome_bounds (c : Char) (h : (digitVal c).isSome = true) :
    48 ≤ c.toNat ∧ c.toNat ≤ 57 := by
  unfold digitVal at h
  by_cases hb : 48 ≤ c.toNat ∧ c.toNat ≤ 57
  · exact hb
  · rw [if_neg hb] at h
    simp at h

theorem skipWs_cons_not_ws (c : Char) (t : List Char)
    (h : isJsonWs c = false) : skipWs (c :: t) = c :: t := by
  simp [skipWs, List.dropWhile_cons, h]

/-- Heads of serialized values: always a cons, never JSON whitespace, and
never a structural delimiter. -/
theorem serJson_head_facts (j : Json) :
    ∃ c t, serJson j = c :: t ∧ isJsonWs c = false ∧ c ≠ ']' ∧
      c ≠ rbrace ∧ c ≠ ',' := by
  match j with
  | .null => exact ⟨'n', _, rfl, by decide, by decide, by decide, by decide⟩
  | .bool true => exact ⟨'t', _, rfl, by decide, by decide, by decide, by decide⟩
  | .bool false => exact ⟨'f', _, rfl, by decide, by decide, by decide, by decide⟩
  | .str s =>
    exact ⟨'"', _, rfl, by decide, by decide, by decide, by decide⟩
  | .arr es =>
    match es with
    | [] => exact ⟨'[', _, rfl, by decide, by decide, by decide, by decide⟩
    | x :: xs => exact ⟨'[', _, rfl, by decide, by decide, by decide, by decide⟩
  | .obj ms =>
    match ms with
    | [] => exact ⟨lbrace, _, rfl, by decide, by decide, by decide, by decide⟩
    | m :: ms' => exact ⟨lbrace, _, rfl, by decide, by decide, by decide, by decide⟩
  | .num n =>
    by_cases hneg : n < 0
    · refine ⟨'-', serNat n.natAbs, ?_, by decide, by decide, by decide, by decide⟩
      show serJson (.num n) = '-' :: serNat n.natAbs
      simp [serJson, serInt, hneg]
    · rcases hher : serNat n.natAbs with _ | ⟨c, t⟩
      · exact absurd hher (serNat_ne_nil _)
      have hcdig : (digitVal c).isSome = true := by
        apply serNat_all_digits n.natAbs
        rw [hher]
        simp
      have hb := digitVal_isSome_bounds c hcdig
      refine ⟨c, t, ?_, ?_, ?_, ?_, ?_⟩
      · show serJson (.num n) = c :: t
        simp [serJson, serInt, hneg, hher]
      · unfold isJsonWs
        rw [decide_eq_false]
        omega
      · exact char_ne_of_toNat_ne (by rw [show (']').toNat = 93 from rfl]; omega)
      · exact char_ne_of_toNat_ne (by rw [show rbrace.toNat = 125 from rfl]; omega)
      · exact char_ne_of_toNat_ne (by rw [show (',').toNat = 44 from rfl]; omega)

/-- Serialized value heads are never digits and never `-` unless the value
itself is a number (used for the number-boundary side conditions). -/
theorem serJson_head_not_digit (j : Json) (c : Char) (t : List Char)
    (hj : serJson j = c :: t) (hnum : ∀ n, j ≠ .num n) :
    (digitVal c).isSome = false ∧ c ≠ '-' := by
  match j with
  | .null => cases hj; exact ⟨by decide, by decide⟩
  | .bool true => cases hj; exact ⟨by decide, by decide⟩
  | .bool false => cases hj; exact ⟨by decide, by decide⟩
  | .str s =>
    have : serJson (.str s) = '"' :: ((s.map escChar).flatten ++ ['"']) := rfl
    rw [this] at hj
    cases hj
    exact ⟨by decide, by decide⟩
  | .arr es =>
    match es with
    | [] => cases hj; exact ⟨by decide, by decide⟩
    | x :: xs =>
      have : serJson (.arr (x :: xs)) =
          '[' :: (serElems (x :: xs) ++ [']']) := rfl
      rw [this] at hj
      cases hj
      exact ⟨by decide, by decide⟩
  | .obj ms =>
    match ms with
    | [] => cases hj; exact ⟨by decide, by decide⟩
    | m :: ms' =>
      have : serJson (.obj (m :: ms')) =
          lbrace :: (serMembers (m :: ms') ++ [rbrace]) := rfl
      rw [this] at hj
      cases hj
      exact ⟨by decide, by decide⟩
  | .num n => exact absurd rfl (hnum n)

/-- One unfolding step of `parseValue` at positive fuel. -/
theorem parseValue_succ_eq (fuel : ℕ) (cs : List Char) :
    parseValue (fuel + 1) cs =
      match skipWs cs with
      | [] => none
      | c :: rest =>
        if ((digitVal c).isSome || c = '-') = true then
          (parseNumber (c :: rest)).map (fun p => (Json.num p.1, p.2))
        else if c = 't' then
          match rest with
          | 'r' :: 'u' :: 'e' :: r => some (Json.bool true, r)
          | _ => none
        else if c = 'f' then
          match rest with
          | 'a' :: 'l' :: 's' :: 'e' :: r => some (Json.bool false, r)
          | _ => none
        else if c = 'n' then
          match rest with
          | 'u' :: 'l' :: 'l' :: r => some (Json.null, r)
          | _ => none
        else if c = '"' then
          (parseStringBody rest).map (fun p => (Json.str p.1, p.2))
        else if c = '[' then
          match skipWs rest with
          | [] => none
          | c2 :: r2 =>
            if c2 = ']' then some (Json.arr [], r2)
            else (parseElems fuel (c2 :: r2)).map (fun p => (Json.arr p.1, p.2))
        else if c = lbrace then
          match skipWs rest with
          | [] => none
          | c2 :: r2 =>
            if c2 = rbrace then some (Json.obj [], r2)
            else (parseMembers fuel (c2 :: r2)).map (fun p => (Json.obj p.1, p.2))
        else none := rfl

/-- One unfolding step of `parseElems` at positive fuel. -/
theorem parseElems_succ_eq (fuel : ℕ) (cs : List Char) :
    parseElems (fuel + 1) cs =
      match parseValue fuel cs with
      | some (v, r) =>
        match skipWs r with
        | [] => none
        | c :: r2 =>
          if c = ',' then (parseElems fuel r2).map (fun p => (v :: p.1, p.2))
          else if c = ']' then some ([v], r2)
          else none
      | none => none := rfl

/-- One unfolding step of `parseMembers` at positive fuel. -/
theorem parseMembers_succ_eq (fuel : ℕ) (cs : List Char) :
    parseMembers (fuel + 1) cs =
      match skipWs cs with
      | '"' :: rest =>
        match parseStringBody rest with
        | some (k, r) =>
          match skipWs r with
          | ':' :: r2 =>
            match parseValue fuel r2 with
            | some (v, r3) =>
              match skipWs r3 with
              | [] => none
              | c :: r4 =>
                if c = ',' then
                  (parseMembers fuel r4).map (fun p => ((k, v) :: p.1, p.2))
                else if c = rbrace then some ([(k, v)], r4)
                else none
            | none => none
          | _ => none
        | none => none
      | _ => none := rfl

/-- One-step value parse of a serialized integer. -/
theorem parseValue_num (g : ℕ) (n : ℤ) (rest : List Char)
    (hrest : ∀ c, rest.head? = some c → digitVal c = none) :
    parseValue (g + 1) (serInt n ++ rest) = some (Json.num n, rest) := by
  by_cases hneg : n < 0
  · have hser : serInt n ++ rest = '-' :: (serNat n.natAbs ++ rest) := by
      simp [serInt, hneg]
    rw [hser, parseValue_succ_eq]
    have hws : skipWs ('-' :: (serNat n.natAbs ++ rest)) =
        '-' :: (serNat n.natAbs ++ rest) := skipWs_cons_not_ws _ _ (by decide)
    rw [hws]
    have hnum := parseNumber_serInt n rest hrest
    rw [hser] at hnum
    simp [hnum]
  · rcases hher : serNat n.natAbs with _ | ⟨c, t⟩
    · exact absurd hher (serNat_ne_nil _)
    have hcdig : (digitVal c).isSome = true := by
      apply serNat_all_digits n.natAbs
      rw [hher]
      simp
    have hb := digitVal_isSome_bounds c hcdig
    have hser : serInt n ++ rest = c :: (t ++ rest) := by
      simp [serInt, hneg, hher]
    rw [hser, parseValue_succ_eq]
    have hws : skipWs (c :: (t ++ rest)) = c :: (t ++ rest) := by
      apply skipWs_cons_not_ws
      unfold isJsonWs
      rw [decide_eq_false]
      omega
    rw [hws]
    have hnum := parseNumber_serInt n rest hrest
    rw [hser] at hnum
    simp [hcdig, hnum]

/-- One-step value parse of `null`. -/
theorem parseValue_null (g : ℕ) (rest : List Char) :
    parseValue (g + 1) ("null".data ++ rest) = some (Json.null, rest) := rfl

/-- One-step value parse of the boolean literals. -/
theorem parseValue_bool (g : ℕ) (b : Bool) (rest : List Char) :
    parseValue (g + 1) (serJson (.bool b) ++ rest) = some (Json.bool b, rest) := by
  cases b
  · rfl
  · rfl

/-- One-step value parse of a serialized string. -/
theorem parseValue_str (g : ℕ) (s : List Char) (rest : List Char) :
    parseValue (g + 1) (serStr s ++ rest) = some (Json.str s, rest) := by
  have hser : serStr s ++ rest = '"' :: ((s.map escChar).flatten ++ '"' :: rest) := by
    simp [serStr]
  rw [hser, parseValue_succ_eq]
  have hws : skipWs ('"' :: ((s.map escChar).flatten ++ '"' :: rest)) =
      '"' :: ((s.map escChar).flatten ++ '"' :: rest) :=
    skipWs_cons_not_ws _ _ (by decide)
  rw [hws]
  simp [parseStringBody_escaped, digitVal]

/-- One-step value parse at a `[` head. -/
theorem parseValue_arrHead (fuel : ℕ) (tail : List Char) :
    parseValue (fuel + 1) ('[' :: tail) =
      match skipWs tail with
      | [] => none
      | c2 :: r2 =>
        if c2 = ']' then some (Json.arr [], r2)
        else (parseElems fuel (c2 :: r2)).map (fun p => (Json.arr p.1, p.2)) :=
  rfl

/-- One-step value parse at a `{` head. -/
theorem parseValue_objHead (fuel : ℕ) (tail : List Char) :
    parseValue (fuel + 1) (lbrace :: tail) =
      match skipWs tail with
      | [] => none
      | c2 :: r2 =>
        if c2 = rbrace then some (Json.obj [], r2)
        else (parseMembers fuel (c2 :: r2)).map (fun p => (Json.obj p.1, p.2)) :=
  rfl

/-- Completeness of the fuelled parser on serializer output: parsing the
serialization of a value (with a non-digit boundary after it) returns the
value, with the stated fuel bounds. -/
theorem parse_ser_main : ∀ N : ℕ,
    (∀ j, jfuel j ≤ N → ∀ g rest,
      (∀ c, rest.head? = some c → digitVal c = none) →
      parseValue (g + jfuel j) (serJson j ++ rest) = some (j, rest)) ∧
    (∀ xs : List Json, xs ≠ [] → jfuelElems xs ≤ N → ∀ g rest,
      parseElems (g + jfuelElems xs) (serElems xs ++ ']' :: rest) =
        some (xs, rest)) ∧
    (∀ ms : List (List Char × Json), ms ≠ [] → jfuelMembers ms ≤ N →
      ∀ g rest,
      parseMembers (g + jfuelMembers ms) (serMembers ms ++ rbrace :: rest) =
        some (ms, rest)) := by
  intro N
  induction N with
  | zero =>
    refine ⟨?_, ?_, ?_⟩
    · intro j hj
      exact absurd hj (by have := jfuel_pos j; omega)
    · intro xs hne hle
      match xs with
      | [] => exact absurd rfl hne
      | x :: xs =>
        exfalso
        have : jfuelElems (x :: xs) = 1 + jfuel x + jfuelElems xs := rfl
        omega
    · intro ms hne hle
      match ms with
      | [] => exact absurd rfl hne
      | (k, v) :: ms =>
        exfalso
        have : jfuelMembers ((k, v) :: ms) = 1 + jfuel v + jfuelMembers ms := rfl
        omega
  | succ N ih =>
    obtain ⟨ihV, ihE, ihM⟩ := ih
    refine ⟨?_, ?_, ?_⟩
    · -- values
      intro j hj g rest hrest
      match j with
      | .null => exact parseValue_null g rest
      | .bool b => exact parseValue_bool g b rest
      | .num n => exact parseValue_num g n rest hrest
      | .str s => exact parseValue_str g s rest
      | .arr [] =>
        show parseValue (g + 1) (('[' :: ([] ++ [']'])) ++ rest) =
          some (Json.arr [], rest)
        rfl
      | .arr (x :: xs) =>
        have hjf : jfuel (Json.arr (x :: xs)) = 1 + jfuelElems (x :: xs) := rfl
        have hFle : jfuelElems (x :: xs) ≤ N := by omega
        have hf : g + jfuel (Json.arr (x :: xs)) =
            (g + jfuelElems (x :: xs)) + 1 := by omega
        have hl : serJson (Json.arr (x :: xs)) ++ rest =
            '[' :: (serElems (x :: xs) ++ ']' :: rest) := by
          show ('[' :: (serElems (x :: xs) ++ [']'])) ++ rest = _
          simp
        rw [hf, hl, parseValue_arrHead]
        obtain ⟨c, t, hxser, hcw, hc1, hc2, hc3⟩ := serJson_head_facts x
        have hT : ∃ T, serElems (x :: xs) ++ ']' :: rest = c :: T ∧
            T = t ++ (match xs with
              | [] => ']' :: rest
              | _ :: _ => ',' :: (serElems xs ++ ']' :: rest)) := by
          match xs with
          | [] =>
            refine ⟨t ++ ']' :: rest, ?_, rfl⟩
            show serJson x ++ ']' :: rest = c :: (t ++ ']' :: rest)
            rw [hxser]
            rfl
          | y :: ys =>
            refine ⟨t ++ ',' :: (serElems (y :: ys) ++ ']' :: rest), ?_, rfl⟩
            show (serJson x ++ ',' :: serElems (y :: ys)) ++ ']' :: rest = _
            rw [hxser]
            simp
        obtain ⟨T, hTeq, _⟩ := hT
        rw [hTeq, skipWs_cons_not_ws c _ hcw]
        have hback : c :: T = serElems (x :: xs) ++ ']' :: rest := hTeq.symm
        simp only [if_neg hc1]
        rw [hback, ihE (x :: xs) (by simp) hFle g rest]
        rfl
      | .obj [] =>
        show parseValue (g + 1) ((lbrace :: ([] ++ [rbrace])) ++ rest) =
          some (Json.obj [], rest)
        rfl
      | .obj (m :: ms) =>
        have hjf : jfuel (Json.obj (m :: ms)) = 1 + jfuelMembers (m :: ms) := rfl
        have hMle : jfuelMembers (m :: ms) ≤ N := by omega
        have hf : g + jfuel (Json.obj (m :: ms)) =
            (g + jfuelMembers (m :: ms)) + 1 := by omega
        have hl : serJson (Json.obj (m :: ms)) ++ rest =
            lbrace :: (serMembers (m :: ms) ++ rbrace :: rest) := by
          show (lbrace :: (serMembers (m :: ms) ++ [rbrace])) ++ rest = _
          simp
        rw [hf, hl, parseValue_objHead]
        have hkey : ∃ T, serMembers (m :: ms) ++ rbrace :: rest = '"' :: T := by
          match m, ms with
          | (k, v), [] =>
            refine ⟨(k.map escChar).flatten ++ '"' :: (':' :: serJson v) ++
              rbrace :: rest, ?_⟩
            show (serStr k ++ ':' :: serJson v) ++ rbrace :: rest = _
            simp [serStr]
          | (k, v), m2 :: ms2 =>
            refine ⟨(k.map escChar).flatten ++ '"' :: (':' :: serJson v) ++
              ',' :: (serMembers (m2 :: ms2)) ++ rbrace :: rest, ?_⟩
            show (serStr k ++ ':' :: serJson v ++ ',' :: serMembers (m2 :: ms2))
              ++ rbrace :: rest = _
            simp [serStr]
        obtain ⟨T, hTeq⟩ := hkey
        rw [hTeq, skipWs_cons_not_ws '"' _ (by decide)]
        simp only [if_neg (show ¬(('"' : Char) = rbrace) by decide)]
        rw [← hTeq, ihM (m :: ms) (by simp) hMle g rest]
        rfl
    · -- array elements
      intro xs hne hle g rest
      match xs with
      | [] => exact absurd rfl hne
      | x :: xs =>
        have hjf : jfuelElems (x :: xs) = 1 + jfuel x + jfuelElems xs := rfl
        have hxle : jfuel x ≤ N := by omega
        have hf : g + jfuelElems (x :: xs) =
            (g + jfuelElems xs + jfuel x) + 1 := by omega
        rw [hf, parseElems_succ_eq]
        match xs with
        | [] =>
          have hl : serElems [x] ++ ']' :: rest = serJson x ++ ']' :: rest := rfl
          rw [hl]
          have hv := ihV x hxle (g + jfuelElems ([] : List Json)) (']' :: rest)
            (by intro c hc; cases hc; decide)
          rw [hv]
          simp [show ∀ t, skipWs (']' :: t) = ']' :: t from
            fun t => skipWs_cons_not_ws ']' t (by decide)]
        | y :: ys =>
          have hl : serElems (x :: y :: ys) ++ ']' :: rest =
              serJson x ++ (',' :: (serElems (y :: ys) ++ ']' :: rest)) := by
            show (serJson x ++ ',' :: serElems (y :: ys)) ++ ']' :: rest = _
            simp
          rw [hl]
          have hv := ihV x hxle (g + jfuelElems (y :: ys))
            (',' :: (serElems (y :: ys) ++ ']' :: rest))
            (by intro c hc; cases hc; decide)
          rw [hv]
          have hyle : jfuelElems (y :: ys) ≤ N := by
            have : jfuelElems (y :: ys) = 1 + jfuel y + jfuelElems ys := rfl
            have h1 := jfuel_pos x
            omega
          have hcomm : g + jfuelElems (y :: ys) + jfuel x =
              g + jfuel x + jfuelElems (y :: ys) := by omega
          have htail := ihE (y :: ys) (by simp) hyle (g + jfuel x) rest
          simp only [show ∀ t, skipWs (',' :: t) = ',' :: t from
            fun t => skipWs_cons_not_ws ',' t (by decide)]
          simp only [hcomm, htail]
          simp
    · -- object members
      intro ms hne hle g rest
      match ms with
      | [] => exact absurd rfl hne
      | (k, v) :: ms =>
        have hjf : jfuelMembers ((k, v) :: ms) = 1 + jfuel v + jfuelMembers ms := rfl
        have hvle : jfuel v ≤ N := by omega
        have hf : g + jfuelMembers ((k, v) :: ms) =
            (g + jfuelMembers ms + jfuel v) + 1 := by omega
        rw [hf, parseMembers_succ_eq]
        match ms with
        | [] =>
          have hl : serMembers [(k, v)] ++ rbrace :: rest =
              '"' :: ((k.map escChar).flatten ++
                '"' :: (':' :: (serJson v ++ rbrace :: rest))) := by
            show (serStr k ++ ':' :: serJson v) ++ rbrace :: rest = _
            simp [serStr]
          rw [hl, skipWs_cons_not_ws '"' _ (by decide)]
          have hv := ihV v hvle (g + jfuelMembers ([] : List (List Char × Json)))
            (rbrace :: rest) (by intro c hc; cases hc; decide)
          simp only [parseStringBody_escaped,
            show ∀ t, skipWs (':' :: t) = ':' :: t from
              fun t => skipWs_cons_not_ws ':' t (by decide), hv,
            show ∀ t, skipWs (rbrace :: t) = rbrace :: t from
              fun t => skipWs_cons_not_ws rbrace t (by decide),
            if_neg (show ¬(rbrace = ',') by decide)]
          simp
        | m2 :: ms2 =>
          have hl : serMembers ((k, v) :: m2 :: ms2) ++ rbrace :: rest =
              '"' :: ((k.map escChar).flatten ++
                '"' :: (':' :: (serJson v ++
                  ',' :: (serMembers (m2 :: ms2) ++ rbrace :: rest)))) := by
            show (serStr k ++ ':' :: serJson v ++ ',' :: serMembers (m2 :: ms2))
              ++ rbrace :: rest = _
            simp [serStr]
          rw [hl, skipWs_cons_not_ws '"' _ (by decide)]
          have hv := ihV v hvle (g + jfuelMembers (m2 :: ms2))
            (',' :: (serMembers (m2 :: ms2) ++ rbrace :: rest))
            (by intro c hc; cases hc; decide)
          have hmle : jfuelMembers (m2 :: ms2) ≤ N := by
            rcases m2 with ⟨k2, v2⟩
            have : jfuelMembers ((k2, v2) :: ms2) =
                1 + jfuel v2 + jfuelMembers ms2 := rfl
            have h1 := jfuel_pos v
            omega
          have hcomm : g + jfuelMembers (m2 :: ms2) + jfuel v =
              g + jfuel v + jfuelMembers (m2 :: ms2) := by omega
          have htail := ihM (m2 :: ms2) (by simp) hmle (g + jfuel v) rest
          simp only [parseStringBody_escaped,
            show ∀ t, skipWs (':' :: t) = ':' :: t from
              fun t => skipWs_cons_not_ws ':' t (by decide), hv,
            show ∀ t, skipWs (',' :: t) = ',' :: t from
              fun t => skipWs_cons_not_ws ',' t (by decide)]
          simp only [hcomm, htail]
          simp

/-- The fuel bounds are within the serialized length, so `jsonParse`'s
`length + 1` fuel always suffices. -/
theorem jfuel_le_serLength : ∀ N : ℕ,
    (∀ j, jfuel j ≤ N → jfuel j ≤ (serJson j).length) ∧
    (∀ xs : List Json, xs ≠ [] → jfuelElems xs ≤ N →
      jfuelElems xs ≤ (serElems xs).length + 1) ∧
    (∀ ms : List (List Char × Json), ms ≠ [] → jfuelMembers ms ≤ N →
      jfuelMembers ms ≤ (serMembers ms).length + 1) := by
  intro N
  induction N with
  | zero =>
    refine ⟨?_, ?_, ?_⟩
    · intro j hj
      exact absurd hj (by have := jfuel_pos j; omega)
    · intro xs hne hle
      match xs with
      | [] => exact absurd rfl hne
      | x :: xs =>
        exfalso
        have : jfuelElems (x :: xs) = 1 + jfuel x + jfuelElems xs := rfl
        omega
    · intro ms hne hle
      match ms with
      | [] => exact absurd rfl hne
      | (k, v) :: ms =>
        exfalso
        have : jfuelMembers ((k, v) :: ms) = 1 + jfuel v + jfuelMembers ms := rfl
        omega
  | succ N ih =>
    obtain ⟨ihV, ihE, ihM⟩ := ih
    refine ⟨?_, ?_, ?_⟩
    · intro j hj
      match j with
      | .null => decide
      | .bool true => decide
      | .bool false => decide
      | .num n =>
        obtain ⟨c, t, hser, _, _, _, _⟩ := serJson_head_facts (.num n)
        have : jfuel (Json.num n) = 1 := rfl
        rw [this, hser]
        simp
      | .str s =>
        have h1 : jfuel (Json.str s) = 1 := rfl
        have h2 : serJson (.str s) =
            '"' :: ((s.map escChar).flatten ++ ['"']) := rfl
        rw [h1, h2]
        simp
      | .arr [] => decide
      | .obj [] => decide
      | .arr (x :: xs) =>
        have h1 : jfuel (Json.arr (x :: xs)) = 1 + jfuelElems (x :: xs) := rfl
        have h2 : serJson (.arr (x :: xs)) =
            '[' :: (serElems (x :: xs) ++ [']']) := rfl
        have h3 : jfuelElems (x :: xs) ≤ (serElems (x :: xs)).length + 1 :=
          ihE (x :: xs) (by simp) (by omega)
        rw [h1, h2]
        simp only [List.length_cons, List.length_append, List.length_singleton]
        omega
      | .obj (m :: ms) =>
        have h1 : jfuel (Json.obj (m :: ms)) = 1 + jfuelMembers (m :: ms) := rfl
        have h2 : serJson (.obj (m :: ms)) =
            lbrace :: (serMembers (m :: ms) ++ [rbrace]) := rfl
        have h3 : jfuelMembers (m :: ms) ≤ (serMembers (m :: ms)).length + 1 :=
          ihM (m :: ms) (by simp) (by omega)
        rw [h1, h2]
        simp only [List.length_cons, List.length_append, List.length_singleton]
        omega
    · intro xs hne hle
      match xs with
      | [] => exact absurd rfl hne
      | [x] =>
        have h1 : jfuelElems [x] = 1 + jfuel x + 0 := rfl
        have h2 : serElems [x] = serJson x := rfl
        have h3 : jfuel x ≤ (serJson x).length := ihV x (by omega)
        rw [h1, h2]
        omega
      | x :: y :: ys =>
        have h1 : jfuelElems (x :: y :: ys) =
            1 + jfuel x + jfuelElems (y :: ys) := rfl
        have h2 : serElems (x :: y :: ys) =
            serJson x ++ ',' :: serElems (y :: ys) := rfl
        have h3 : jfuel x ≤ (serJson x).length := ihV x (by omega)
        have h4 : jfuelElems (y :: ys) ≤ (serElems (y :: ys)).length + 1 := by
          apply ihE (y :: ys) (by simp)
          have h5 : jfuelElems (y :: ys) = 1 + jfuel y + jfuelElems ys := rfl
          have := jfuel_pos x
          omega
        rw [h1, h2]
        simp only [List.length_append, List.length_cons]
        omega
    · intro ms hne hle
      match ms with
      | [] => exact absurd rfl hne
      | [(k, v)] =>
        have h1 : jfuelMembers [(k, v)] = 1 + jfuel v + 0 := rfl
        have h2 : serMembers [(k, v)] = serStr k ++ ':' :: serJson v := rfl
        have h3 : jfuel v ≤ (serJson v).length := ihV v (by omega)
        rw [h1, h2]
        simp only [List.length_append, List.length_cons]
        omega
      | (k, v) :: m2 :: ms2 =>
        have h1 : jfuelMembers ((k, v) :: m2 :: ms2) =
            1 + jfuel v + jfuelMembers (m2 :: ms2) := rfl
        have h2 : serMembers ((k, v) :: m2 :: ms2) =
            serStr k ++ ':' :: serJson v ++ ',' :: serMembers (m2 :: ms2) := rfl
        have h3 : jfuel v ≤ (serJson v).length := ihV v (by omega)
        have h4 : jfuelMembers (m2 :: ms2) ≤ (serMembers (m2 :: ms2)).length + 1 := by
          apply ihM (m2 :: ms2) (by simp)
          rcases m2 with ⟨k2, v2⟩
          have h5 : jfuelMembers ((k2, v2) :: ms2) =
              1 + jfuel v2 + jfuelMembers ms2 := rfl
          have := jfuel_pos v
          omega
        rw [h1, h2]
        simp only [List.length_append, List.length_cons]
        omega

/-- The `JSON.parse` model inverts the `JSON.stringify` model. -/
theorem jsonParse_serJson (j : Json) : jsonParse (serJson j) = some j := by
  have hle : jfuel j ≤ (serJson j).length :=
    (jfuel_le_serLength (jfuel j)).1 j le_rfl
  have hfe : (serJson j).length + 1 =
      ((serJson j).length + 1 - jfuel j) + jfuel j := by
    have := jfuel_pos j
    omega
  have hmain := (parse_ser_main (jfuel j)).1 j le_rfl
    ((serJson j).length + 1 - jfuel j) []
    (by intro c hc; simp at hc)
  rw [List.append_nil] at hmain
  unfold jsonParse
  rw [hfe, hmain]
  rfl

/-! ## Latin-1 serializations

`btoa` accepts exactly Latin-1 strings, so the round trip needs that the
serialized token text stays below code point 256 whenever the strings inside
the value do. -/

/-- A JSON value whose strings (and keys) are Latin-1. -/
inductive Latin1Json : Json → Prop
  | null : Latin1Json .null
  | bool (b : Bool) : Latin1Json (.bool b)
  | num (n : ℤ) : Latin1Json (.num n)
  | str (s : List Char) (h : ∀ c ∈ s, c.toNat < 256) : Latin1Json (.str s)
  | arr (xs : List Json) (h : ∀ x ∈ xs, Latin1Json x) : Latin1Json (.arr xs)
  | obj (ms : List (List Char × Json))
      (hk : ∀ m ∈ ms, ∀ c ∈ m.1, c.toNat < 256)
      (hv : ∀ m ∈ ms, Latin1Json m.2) : Latin1Json (.obj ms)

theorem hexDigitChr_latin1 : ∀ v : ℕ, v < 16 → (hexDigitChr v).toNat < 256 := by
  decide

theorem escChar_latin1 (c : Char) (h : c.toNat < 256) :
    ∀ d ∈ escChar c, d.toNat < 256 := by
  intro d hd
  unfold escChar at hd
  by_cases h1 : c = '"'
  · rw [if_pos h1] at hd
    fin_cases hd
    · decide
    · decide
  rw [if_neg h1] at hd
  by_cases h2 : c = '\\'
  · rw [if_pos h2] at hd
    fin_cases hd
    · decide
    · decide
  rw [if_neg h2] at hd
  by_cases h3 : c.toNat = 8
  · rw [if_pos h3] at hd
    fin_cases hd
    · decide
    · decide
  rw [if_neg h3] at hd
  by_cases h4 : c.toNat = 9
  · rw [if_pos h4] at hd
    fin_cases hd
    · decide
    · decide
  rw [if_neg h4] at hd
  by_cases h5 : c.toNat = 10
  · rw [if_pos h5] at hd
    fin_cases hd
    · decide
    · decide
  rw [if_neg h5] at hd
  by_cases h6 : c.toNat = 12
  · rw [if_pos h6] at hd
    fin_cases hd
    · decide
    · decide
  rw [if_neg h6] at hd
  by_cases h7 : c.toNat = 13
  · rw [if_pos h7] at hd
    fin_cases hd
    · decide
    · decide
  rw [if_neg h7] at hd
  by_cases h8 : c.toNat < 32
  · rw [if_pos h8] at hd
    fin_cases hd
    · decide
    · decide
    · decide
    · decide
    · exact hexDigitChr_latin1 (c.toNat / 16) (by omega)
    · exact hexDigitChr_latin1 (c.toNat % 16) (by omega)
  · rw [if_neg h8] at hd
    simp at hd
    subst hd
    exact h

theorem serStr_latin1 (s : List Char) (h : ∀ c ∈ s, c.toNat < 256) :
    ∀ c ∈ serStr s, c.toNat < 256 := by
  intro c hc
  unfold serStr at hc
  rcases List.mem_cons.mp hc with hc | hc
  · subst hc; decide
  rcases List.mem_append.mp hc with hc | hc
  · rcases List.mem_flatten.mp hc with ⟨l, hl, hcl⟩
    rcases List.mem_map.mp hl with ⟨d, hds, rfl⟩
    exact escChar_latin1 d (h d hds) c hcl
  · simp at hc
    subst hc
    decide

theorem serInt_latin1 (n : ℤ) : ∀ c ∈ serInt n, c.toNat < 256 := by
  intro c hc
  have hdig : ∀ c ∈ serNat n.natAbs, c.toNat < 256 := by
    intro d hd
    have := digitVal_isSome_bounds d (serNat_all_digits n.natAbs d hd)
    omega
  unfold serInt at hc
  by_cases hneg : n < 0
  · rw [if_pos hneg] at hc
    rcases List.mem_cons.mp hc with hc | hc
    · subst hc; decide
    · exact hdig c hc
  · rw [if_neg hneg] at hc
    exact hdig c hc

theorem serElems_latin1 (xs : List Json)
    (hx : ∀ x ∈ xs, ∀ c ∈ serJson x, c.toNat < 256) :
    ∀ c ∈ serElems xs, c.toNat < 256 := by
  induction xs with
  | nil =>
    intro c hc
    simp [serElems] at hc
  | cons x xs ih =>
    intro c hc
    rcases xs with _ | ⟨y, ys⟩
    · have he : serElems [x] = serJson x := rfl
      rw [he] at hc
      exact hx x (by simp) c hc
    · have he : serElems (x :: y :: ys) =
          serJson x ++ ',' :: serElems (y :: ys) := rfl
      rw [he] at hc
      rcases List.mem_append.mp hc with hc | hc
      · exact hx x (by simp) c hc
      · rcases List.mem_cons.mp hc with hc | hc
        · subst hc; decide
        · exact ih (fun z hz => hx z (by simp [hz])) c hc

theorem serMembers_latin1 (ms : List (List Char × Json))
    (hk : ∀ m ∈ ms, ∀ c ∈ m.1, c.toNat < 256)
    (hv : ∀ m ∈ ms, ∀ c ∈ serJson m.2, c.toNat < 256) :
    ∀ c ∈ serMembers ms, c.toNat < 256 := by
  induction ms with
  | nil =>
    intro c hc
    simp [serMembers] at hc
  | cons m ms ih =>
    intro c hc
    rcases m with ⟨k, v⟩
    rcases ms with _ | ⟨m2, ms2⟩
    · have he : serMembers [(k, v)] = serStr k ++ ':' :: serJson v := rfl
      rw [he] at hc
      rcases List.mem_append.mp hc with hc | hc
      · exact serStr_latin1 k (hk (k, v) (by simp)) c hc
      · rcases List.mem_cons.mp hc with hc | hc
        · subst hc; decide
        · exact hv (k, v) (by simp) c hc
    · have he : serMembers ((k, v) :: m2 :: ms2) =
          (serStr k ++ ':' :: serJson v) ++ ',' :: serMembers (m2 :: ms2) := rfl
      rw [he] at hc
      rcases List.mem_append.mp hc with hc | hc
      · rcases List.mem_append.mp hc with hc | hc
        · exact serStr_latin1 k (hk (k, v) (by simp)) c hc
        · rcases List.mem_cons.mp hc with hc | hc
          · subst hc; decide
          · exact hv (k, v) (by simp) c hc
      · rcases List.mem_cons.mp hc with hc | hc
        · subst hc; decide
        · exact ih (fun z hz => hk z (by simp [hz]))
            (fun z hz => hv z (by simp [hz])) c hc

/-- A Latin-1 JSON value serializes to a Latin-1 string. -/
theorem serJson_latin1 (j : Json) (h : Latin1Json j) :
    ∀ c ∈ serJson j, c.toNat < 256 := by
  induction h with
  | null =>
    intro c hc
    exact (show ∀ c ∈ serJson Json.null, c.toNat < 256 by decide) c hc
  | bool b =>
    intro c hc
    cases b
    · exact (show ∀ c ∈ serJson (Json.bool false), c.toNat < 256 by decide) c hc
    · exact (show ∀ c ∈ serJson (Json.bool true), c.toNat < 256 by decide) c hc
  | num n => exact serInt_latin1 n
  | str s hs => exact serStr_latin1 s hs
  | arr xs hx ih =>
    intro c hc
    have he : serJson (.arr xs) = '[' :: (serElems xs ++ [']']) := rfl
    rw [he] at hc
    rcases List.mem_cons.mp hc with hc | hc
    · subst hc; decide
    rcases List.mem_append.mp hc with hc | hc
    · exact serElems_latin1 xs ih c hc
    · simp at hc
      subst hc
      decide
  | obj ms hk hv ihv =>
    intro c hc
    have he : serJson (.obj ms) = lbrace :: (serMembers ms ++ [rbrace]) := rfl
    rw [he] at hc
    rcases List.mem_cons.mp hc with hc | hc
    · subst hc; decide
    rcases List.mem_append.mp hc with hc | hc
    · exact serMembers_latin1 ms hk ihv c hc
    · simp at hc
      subst hc
      decide

/-! ## Progress tokens

`generateProgressToken` (first store variant, the one that embeds the full
player object) is `btoa(JSON.stringify(tokenData))`; `parseProgressToken` is
`JSON.parse(atob(token))` inside a `try` that yields `null` on any failure.
The `Option` models both the `null` sentinel of the decoder and the exception
`btoa` raises on non-Latin-1 input. -/

/-- Field access `obj[key]` on a JSON object: first member with that key
(insertion order, as produced by `JSON.stringify`/`JSON.parse`). -/
def jsonLookup (j : Json) (key : List Char) : Option Json :=
  match j with
  | .obj ms => (ms.find? (fun m => decide (m.1 = key))).map (fun m => m.2)
  | _ => none

/-- `JSON.stringify` view of a `MissionProgress` entry, insertion-order keys;
the optional `quizScore` is omitted when absent, as `stringify` omits
`undefined` fields. -/
def progressJson (p : MissionProgress) : Json :=
  Json.obj
    ([(("missionId").data, Json.num p.missionId),
      (("completed").data, Json.bool p.completed),
      (("timeSpent").data, Json.num p.timeSpent),
      (("hintsUsed").data, Json.num p.hintsUsed),
      (("score").data, Json.num p.score)] ++
     (match p.quizScore with
      | some q => [(("quizScore").data, Json.num q)]
      | none => []))

/-- The `player` sub-object the encoder builds field by field. -/
def playerJson (p : Player) : Json :=
  Json.obj
    [(("id").data, Json.str p.id.data),
     (("name").data, Json.str p.name.data),
     (("difficulty").data, Json.str (difficultyStr p.difficulty).data),
     (("currentMission").data, Json.num p.currentMission),
     (("progress").data, Json.arr (p.progress.map progressJson)),
     (("totalTimeSpent").data, Json.num p.totalTimeSpent)]

/-- The `tokenData` object of `generateProgressToken` (first store variant):
`playerId`, `difficulty`, `completedMissions`, `hintsUsed`, `timeSpent`,
`timestamp` (`Date.now()`, passed in as `now`), and `player` (full object or
`null`). -/
def tokenJson (s : GameState) (now : ℤ) : Json :=
  Json.obj
    [(("playerId").data, Json.str s.playerId.data),
     (("difficulty").data, Json.str (difficultyStr s.difficulty).data),
     (("completedMissions").data, Json.arr (s.completedMissions.map Json.num)),
     (("hintsUsed").data, Json.num s.hintsUsed),
     (("timeSpent").data, Json.num s.timeSpent),
     (("timestamp").data, Json.num now),
     (("player").data,
      match s.player with
      | some p => playerJson p
      | none => Json.null)]

/-- `generateProgressToken`: `btoa(JSON.stringify(tokenData))`; `none` models
the `InvalidCharacterError` `btoa` throws on non-Latin-1 input. -/
def generateProgressToken (s : GameState) (now : ℤ) : Option String :=
  (btoaList (serJson (tokenJson s now))).map String.mk

/-- `parseProgressToken`: `try JSON.parse(atob(token)) catch null`; `none` is
the `null` sentinel. -/
def parseProgressToken (tok : String) : Option Json :=
  (atobList tok.data).bind jsonParse

/-- C6: the token decoder is a total function into an option: it never
throws; on the empty string, on non-base64 text, and on base64 of invalid
JSON it returns the null sentinel, and on every input it returns either the
sentinel or a decoded value. -/
theorem claimC6_decoder_total_null_on_malformed :
    parseProgressToken "" = none ∧
    parseProgressToken "!!!" = none ∧
    parseProgressToken "e29vcHM=" = none ∧
    ∀ tok : String, parseProgressToken tok = none ∨
      ∃ j, parseProgressToken tok = some j := by
  refine ⟨rfl, rfl, rfl, ?_⟩
  intro tok
  cases h : parseProgressToken tok with
  | none => exact Or.inl rfl
  | some j => exact Or.inr ⟨j, rfl⟩

/-- `"e29vcHM="` above really is base64 of invalid JSON: it is what `btoa`
produces on the non-JSON text `{oops`. -/
theorem e29vcHM_is_btoa_of_invalid_json :
    btoaList ("\x7boops").data = some ("e29vcHM=").data := by
  decide

/-- The strings `btoa` must encode are the state's free-form ones: the player
id and name (the difficulty strings are fixed ASCII literals). -/
def stateLatin1 (s : GameState) : Bool :=
  s.playerId.data.all (fun c => decide (c.toNat < 256)) &&
  (match s.player with
   | none => true
   | some p =>
     p.id.data.all (fun c => decide (c.toNat < 256)) &&
       p.name.data.all (fun c => decide (c.toNat < 256)))

theorem difficultyStr_latin1 (d : Difficulty) :
    ∀ c ∈ (difficultyStr d).data, c.toNat < 256 := by
  cases d
  · decide
  · decide
  · decide

theorem progressJson_latin1 (p : MissionProgress) :
    Latin1Json (progressJson p) := by
  rcases hq : p.quizScore with _ | q
  · have he : progressJson p = Json.obj
        [(("missionId").data, Json.num p.missionId),
         (("completed").data, Json.bool p.completed),
         (("timeSpent").data, Json.num p.timeSpent),
         (("hintsUsed").data, Json.num p.hintsUsed),
         (("score").data, Json.num p.score)] := by
      unfold progressJson
      rw [hq]
      rfl
    rw [he]
    refine Latin1Json.obj _ ?_ ?_
    · intro m hm
      fin_cases hm
      · exact (show ∀ c ∈ ("missionId").data, c.toNat < 256 by decide)
      · exact (show ∀ c ∈ ("completed").data, c.toNat < 256 by decide)
      · exact (show ∀ c ∈ ("timeSpent").data, c.toNat < 256 by decide)
      · exact (show ∀ c ∈ ("hintsUsed").data, c.toNat < 256 by decide)
      · exact (show ∀ c ∈ ("score").data, c.toNat < 256 by decide)
    · intro m hm
      fin_cases hm
      · exact Latin1Json.num _
      · exact Latin1Json.bool _
      · exact Latin1Json.num _
      · exact Latin1Json.num _
      · exact Latin1Json.num _
  · have he : progressJson p = Json.obj
        [(("missionId").data, Json.num p.missionId),
         (("completed").data, Json.bool p.completed),
         (("timeSpent").data, Json.num p.timeSpent),
         (("hintsUsed").data, Json.num p.hintsUsed),
         (("score").data, Json.num p.score),
         (("quizScore").data, Json.num q)] := by
      unfold progressJson
      rw [hq]
      rfl
    rw [he]
    refine Latin1Json.obj _ ?_ ?_
    · intro m hm
      fin_cases hm
      · exact (show ∀ c ∈ ("missionId").data, c.toNat < 256 by decide)
      · exact (show ∀ c ∈ ("completed").data, c.toNat < 256 by decide)
      · exact (show ∀ c ∈ ("timeSpent").data, c.toNat < 256 by decide)
      · exact (show ∀ c ∈ ("hintsUsed").data, c.toNat < 256 by decide)
      · exact (show ∀ c ∈ ("score").data, c.toNat < 256 by decide)
      · exact (show ∀ c ∈ ("quizScore").data, c.toNat < 256 by decide)
    · intro m hm
      fin_cases hm
      · exact Latin1Json.num _
      · exact Latin1Json.bool _
      · exact Latin1Json.num _
      · exact Latin1Json.num _
      · exact Latin1Json.num _
      · exact Latin1Json.num _

theorem playerJson_latin1 (p : Player)
    (hid : ∀ c ∈ p.id.data, c.toNat < 256)
    (hname : ∀ c ∈ p.name.data, c.toNat < 256) :
    Latin1Json (playerJson p) := by
  unfold playerJson
  refine Latin1Json.obj _ ?_ ?_
  · intro m hm
    fin_cases hm
    · exact (show ∀ c ∈ ("id").data, c.toNat < 256 by decide)
    · exact (show ∀ c ∈ ("name").data, c.toNat < 256 by decide)
    · exact (show ∀ c ∈ ("difficulty").data, c.toNat < 256 by decide)
    · exact (show ∀ c ∈ ("currentMission").data, c.toNat < 256 by decide)
    · exact (show ∀ c ∈ ("progress").data, c.toNat < 256 by decide)
    · exact (show ∀ c ∈ ("totalTimeSpent").data, c.toNat < 256 by decide)
  · intro m hm
    fin_cases hm
    · exact Latin1Json.str _ hid
    · exact Latin1Json.str _ hname
    · exact Latin1Json.str _ (difficultyStr_latin1 p.difficulty)
    · exact Latin1Json.num _
    · refine Latin1Json.arr _ ?_
      intro x hx
      rcases List.mem_map.mp hx with ⟨e, _, rfl⟩
      exact progressJson_latin1 e
    · exact Latin1Json.num _

theorem tokenJson_latin1 (s : GameState) (now : ℤ)
    (h : stateLatin1 s = true) : Latin1Json (tokenJson s now) := by
  unfold stateLatin1 at h
  rcases hp : s.player with _ | p
  all_goals rw [hp] at h
  · simp only [Bool.and_true, List.all_eq_true, decide_eq_true_eq] at h
    unfold tokenJson
    rw [hp]
    refine Latin1Json.obj _ ?_ ?_
    · intro m hm
      fin_cases hm
      · exact (show ∀ c ∈ ("playerId").data, c.toNat < 256 by decide)
      · exact (show ∀ c ∈ ("difficulty").data, c.toNat < 256 by decide)
      · exact (show ∀ c ∈ ("completedMissions").data, c.toNat < 256 by decide)
      · exact (show ∀ c ∈ ("hintsUsed").data, c.toNat < 256 by decide)
      · exact (show ∀ c ∈ ("timeSpent").data, c.toNat < 256 by decide)
      · exact (show ∀ c ∈ ("timestamp").data, c.toNat < 256 by decide)
      · exact (show ∀ c ∈ ("player").data, c.toNat < 256 by decide)
    · intro m hm
      fin_cases hm
      · exact Latin1Json.str _ h
      · exact Latin1Json.str _ (difficultyStr_latin1 s.difficulty)
      · refine Latin1Json.arr _ ?_
        intro x hx
        rcases List.mem_map.mp hx with ⟨n, _, rfl⟩
        exact Latin1Json.num n
      · exact Latin1Json.num _
      · exact Latin1Json.num _
      · exact Latin1Json.num _
      · exact Latin1Json.null
  · simp only [Bool.and_eq_true, List.all_eq_true, decide_eq_true_eq] at h
    unfold tokenJson
    rw [hp]
    refine Latin1Json.obj _ ?_ ?_
    · intro m hm
      fin_cases hm
      · exact (show ∀ c ∈ ("playerId").data, c.toNat < 256 by decide)
      · exact (show ∀ c ∈ ("difficulty").data, c.toNat < 256 by decide)
      · exact (show ∀ c ∈ ("completedMissions").data, c.toNat < 256 by decide)
      · exact (show ∀ c ∈ ("hintsUsed").data, c.toNat < 256 by decide)
      · exact (show ∀ c ∈ ("timeSpent").data, c.toNat < 256 by decide)
      · exact (show ∀ c ∈ ("timestamp").data, c.toNat < 256 by decide)
      · exact (show ∀ c ∈ ("player").data, c.toNat < 256 by decide)
    · intro m hm
      fin_cases hm
      · exact Latin1Json.str _ h.1
      · exact Latin1Json.str _ (difficultyStr_latin1 s.difficulty)
      · refine Latin1Json.arr _ ?_
        intro x hx
        rcases List.mem_map.mp hx with ⟨n, _, rfl⟩
        exact Latin1Json.num n
      · exact Latin1Json.num _
      · exact Latin1Json.num _
      · exact Latin1Json.num _
      · exact playerJson_latin1 p h.2.1 h.2.2

/-- The round-trip contract: the token decodes back to the encoded
`tokenData` object itself, and every field the encoder documents as carried
reads off it (and off its `player` sub-object when one exists). -/
def tokenRoundTrip (s : GameState) (now : ℤ) : Prop :=
  ∃ tok : String, generateProgressToken s now = some tok ∧
    parseProgressToken tok = some (tokenJson s now) ∧
    jsonLookup (tokenJson s now) ("playerId").data =
      some (Json.str s.playerId.data) ∧
    jsonLookup (tokenJson s now) ("difficulty").data =
      some (Json.str (difficultyStr s.difficulty).data) ∧
    jsonLookup (tokenJson s now) ("completedMissions").data =
      some (Json.arr (s.completedMissions.map Json.num)) ∧
    jsonLookup (tokenJson s now) ("hintsUsed").data =
      some (Json.num s.hintsUsed) ∧
    jsonLookup (tokenJson s now) ("timeSpent").data =
      some (Json.num s.timeSpent) ∧
    jsonLookup (tokenJson s now) ("timestamp").data = some (Json.num now) ∧
    ∀ p, s.player = some p →
      jsonLookup (tokenJson s now) ("player").data = some (playerJson p) ∧
      jsonLookup (playerJson p) ("id").data = some (Json.str p.id.data) ∧
      jsonLookup (playerJson p) ("name").data = some (Json.str p.name.data) ∧
      jsonLookup (playerJson p) ("difficulty").data =
        some (Json.str (difficultyStr p.difficulty).data) ∧
      jsonLookup (playerJson p) ("currentMission").data =
        some (Json.num p.currentMission) ∧
      jsonLookup (playerJson p) ("progress").data =
        some (Json.arr (p.progress.map progressJson)) ∧
      jsonLookup (playerJson p) ("totalTimeSpent").data =
        some (Json.num p.totalTimeSpent)

/-- C3 (amended): for every state whose free-form strings (player id and
name) are Latin-1, encoding succeeds and decoding the token reproduces every
documented field. The Latin-1 restriction is necessary: see the
counterexample, where `btoa` throws on a name outside Latin-1. -/
theorem claimC3_token_round_trip (s : GameState) (now : ℤ)
    (h : stateLatin1 s = true) : tokenRoundTrip s now := by
  obtain ⟨t, hb, ha⟩ := atobList_btoaList (serJson (tokenJson s now))
    (serJson_latin1 _ (tokenJson_latin1 s now h))
  refine ⟨String.mk t, ?_, ?_, rfl, rfl, rfl, rfl, rfl, rfl, ?_⟩
  · unfold generateProgressToken
    rw [hb]
    rfl
  · unfold parseProgressToken
    show (atobList t).bind jsonParse = some (tokenJson s now)
    rw [ha]
    show jsonParse (serJson (tokenJson s now)) = some (tokenJson s now)
    exact jsonParse_serJson _
  · intro p hp
    have hpl : jsonLookup (tokenJson s now) ("player").data =
        some (match s.player with
              | some q => playerJson q
              | none => Json.null) := rfl
    rw [hp] at hpl
    exact ⟨hpl, rfl, rfl, rfl, rfl, rfl, rfl⟩

def c3GoodProgress : MissionProgress :=
  { missionId := 1, completed := true, timeSpent := 30,
    hintsUsed := 1, score := 90, quizScore := some 80 }

def c3GoodPlayer : Player :=
  { id := "p1", name := "Ada", difficulty := .intermediate,
    currentMission := 2, progress := [c3GoodProgress], totalTimeSpent := 30 }

/-- A concrete Latin-1 state with a full player record. -/
def c3GoodState : GameState :=
  { playerId := "p1", difficulty := .intermediate, completedMissions := [1],
    currentMission := some 2, progressTokens := [], hintsUsed := 1,
    timeSpent := 30, player := some c3GoodPlayer }

/-- Witness for claim C3 at a concrete Latin-1 state. -/
theorem claimC3_token_round_trip_witness :
    stateLatin1 c3GoodState = true ∧ tokenRoundTrip c3GoodState 5 :=
  ⟨by decide, claimC3_token_round_trip c3GoodState 5 (by decide)⟩

def c3BadPlayer : Player :=
  { id := "p1", name := "Ωmega", difficulty := .beginner,
    currentMission := 1, progress := [], totalTimeSpent := 0 }

/-- A valid player record whose name contains a character above Latin-1. -/
def c3BadState : GameState :=
  { initialStoreState with player := some c3BadPlayer }

/-- C3 counterexample: for the valid player record named `Ωmega` the encoder
does not even produce a token — `btoa` throws on the serialized JSON because
`Ω` is outside Latin-1 — so the round trip fails for this record. -/
theorem claimC3_counterexample_non_latin1_name :
    generateProgressToken c3BadState 0 = none := by
  decide

/-! ## Claim C5: importing a token into the instructor views

Two distinct instructor views import tokens: `handleAddPlayer` in
`InstructorDashboard.tsx` reconstructs a player from the token's
`completedMissions`, and `importToken` in the second dashboard takes the
fallback branch when the payload has no `player` object. -/

/-- JavaScript truthiness of a decoded JSON value (`if (tokenData)`,
`if (data.player)`, `x || y` tests). -/
def jsonTruthy : Json → Bool
  | .null => false
  | .bool b => b
  | .num n => decide (n ≠ 0)
  | .str s => !s.isEmpty
  | .arr _ => true
  | .obj _ => true

/-- The difficulty strings the stores produce, read back into the enum; the
dashboards pass the token's string through unchecked, so any other string is
modelled by the `beginner` fallback they default to. -/
def difficultyOfStr (s : List Char) : Difficulty :=
  if s = ("intermediate").data then .intermediate
  else if s = ("advanced").data then .advanced
  else .beginner

/-- `Array.isArray(x) ? x : []`, reading the mission ids; the stores only
ever put numbers in `completedMissions`, so numeric entries are read and the
(untyped) non-numeric ones dropped. -/
def jsonIntList : Option Json → List ℤ
  | some (.arr xs) =>
    xs.filterMap (fun j =>
      match j with
      | .num n => some n
      | _ => none)
  | _ => []

/-- `typeof x === number ? x : 0` on an optional field. -/
def jsonNumOr0 : Option Json → ℤ
  | some (.num n) => n
  | _ => 0

/-- A string field read with a falsy fallback (`x || fallback`). -/
def jsonStrOr (fallback : List Char) : Option Json → List Char
  | some (.str s) => if s.isEmpty then fallback else s
  | _ => fallback

/-- `Math.min(Math.max(...completedMissions) + 1, 6)` on a non-empty list,
else `1`. -/
def nextMissionOf : List ℤ → ℤ
  | [] => 1
  | m :: rest => min (rest.foldl max m + 1) 6

/-- `handleAddPlayer` of `InstructorDashboard.tsx`: trim the token input,
decode it, rebuild a player whose progress marks every completed mission
completed, and upsert it into the tracked list. -/
def handleAddPlayer (tokenInput nameInput : String) (prev : List Player) :
    List Player :=
  if (jsTrimStr tokenInput).isEmpty then prev
  else
    match parseProgressToken (jsTrimStr tokenInput) with
    | none => prev
    | some tokenData =>
      if jsonTruthy tokenData then
        let completedMissions :=
          jsonIntList (jsonLookup tokenData ("completedMissions").data)
        let difficulty :=
          jsonStrOr ("beginner").data
            (jsonLookup tokenData ("difficulty").data)
        let timeSpent := jsonNumOr0 (jsonLookup tokenData ("timeSpent").data)
        let progress := completedMissions.map (fun mid =>
          ({ missionId := mid, completed := true, timeSpent := 0,
             hintsUsed := 0, score := 0, quizScore := none } : MissionProgress))
        let pid := jsonStrOr [] (jsonLookup tokenData ("playerId").data)
        let fallbackName := ("Player ").data ++
          (if pid.isEmpty then ("xxxxxx").data else pid).take 6
        let player : Player :=
          { id := String.mk pid
            name := if (jsTrimStr nameInput).isEmpty then
                String.mk fallbackName
              else jsTrimStr nameInput
            difficulty := difficultyOfStr difficulty
            currentMission := nextMissionOf completedMissions
            progress := progress
            totalTimeSpent := timeSpent }
        match prev.findIdx? (fun p => decide (p.id = player.id)) with
        | some i => prev.set i player
        | none => prev ++ [player]
      else prev

/-- A raw progress entry as the second dashboard's `importToken` stores it
(no validation in the source; the numeric fields the TS type asserts are
read, anything else defaults). -/
def missionProgressOfJson (j : Json) : MissionProgress :=
  { missionId := jsonNumOr0 (jsonLookup j ("missionId").data)
    completed := jsonTruthy ((jsonLookup j ("completed").data).getD Json.null)
    timeSpent := jsonNumOr0 (jsonLookup j ("timeSpent").data)
    hintsUsed := jsonNumOr0 (jsonLookup j ("hintsUsed").data)
    score := jsonNumOr0 (jsonLookup j ("score").data)
    quizScore :=
      match jsonLookup j ("quizScore").data with
      | some (.num n) => some n
      | _ => none }

/-- `importToken` of the second instructor dashboard (`part_003`): decode the
trimmed token; with a `player` object copy its fields, otherwise fall back to
`currentMission: 1` and empty `progress`; throw (`none`) when the player id
is missing. -/
def importTokenPlayer (tokenText : String) : Option Player :=
  ((atobList (jsTrimStr tokenText).data).bind jsonParse).bind (fun data =>
    let playerField := (jsonLookup data ("player").data).getD Json.null
    let player : Player :=
      if jsonTruthy playerField then
        { id := String.mk (jsonStrOr [] (jsonLookup playerField ("id").data))
          name := String.mk
            (jsonStrOr [] (jsonLookup playerField ("name").data))
          difficulty := difficultyOfStr
            (jsonStrOr ("beginner").data
              (jsonLookup playerField ("difficulty").data))
          currentMission :=
            jsonNumOr0 (jsonLookup playerField ("currentMission").data)
          progress :=
            match jsonLookup playerField ("progress").data with
            | some (.arr xs) => xs.map missionProgressOfJson
            | _ => []
          totalTimeSpent :=
            jsonNumOr0 (jsonLookup playerField ("totalTimeSpent").data) }
      else
        let pid := jsonStrOr [] (jsonLookup data ("playerId").data)
        { id := String.mk pid
          name := String.mk (jsonStrOr (("Player ").data ++ pid.take 5)
            (jsonLookup data ("name").data))
          difficulty := difficultyOfStr
            (jsonStrOr ("beginner").data
              (jsonLookup data ("difficulty").data))
          currentMission := 1
          progress := []
          totalTimeSpent := jsonNumOr0 (jsonLookup data ("timeSpent").data) }
    if player.id.isEmpty then none else some player)

/-- The C5 payload
`\x7bplayerId:"p1", completedMissions:[1,2], difficulty:"intermediate", timeSpent:120000\x7d`
(no `player` object). -/
def c5Payload : Json :=
  Json.obj
    [(("playerId").data, Json.str ("p1").data),
     (("completedMissions").data, Json.arr [Json.num 1, Json.num 2]),
     (("difficulty").data, Json.str ("intermediate").data),
     (("timeSpent").data, Json.num 120000)]

/-- The token encoding the C5 payload. -/
def c5Token : String := String.mk ((btoaList (serJson c5Payload)).getD [])

/-- The player `handleAddPlayer` reconstructs from the C5 payload. -/
def c5Expected : Player :=
  { id := "p1", name := "Player p1", difficulty := .intermediate,
    currentMission := 3,
    progress :=
      [{ missionId := 1, completed := true, timeSpent := 0, hintsUsed := 0,
         score := 0, quizScore := none },
       { missionId := 2, completed := true, timeSpent := 0, hintsUsed := 0,
         score := 0, quizScore := none }],
    totalTimeSpent := 120000 }

set_option maxRecDepth 8000 in
/-- C5 (amended): importing the C5 token into `InstructorDashboard`'s
`handleAddPlayer` does produce a tracked record with id `p1`,
`currentMission = 3` and exactly the two completed entries — but the other
importer diverges (see the counterexample). -/
theorem claimC5_dashboard_import :
    handleAddPlayer c5Token "" [] = [c5Expected] ∧
    c5Expected.id = "p1" ∧
    c5Expected.currentMission = 3 ∧
    c5Expected.progress.length = 2 ∧
    c5Expected.progress.all (fun e => e.completed) = true := by
  refine ⟨by decide, rfl, rfl, rfl, rfl⟩

/-- C5 counterexample: the second dashboard's `importToken` on the very same
token stores `currentMission = 1` and an empty progress list (its no-`player`
fallback ignores `completedMissions`), not `currentMission = 3` with two
completed entries. -/
theorem claimC5_counterexample_importToken_ignores_completed :
    (importTokenPlayer c5Token).map
      (fun p => (p.currentMission, p.progress.length)) = some (1, 0) := by
  decide

end DevOpsEscapeRoom
